import Mathlib

/-!
# WebCV generator — verification of the natural-language specification

Shallow embedding of `generator/generate.py` (CV generator: date/duration
formatting, regex-based anonymization, grouping of work entries by company,
greedy two-column pagination, HTML rendering) together with theorems that
settle the specification claims.

Conventions of the embedding:
* Python strings are modelled as Lean `String` / `List Char`.
* Python `dict` lookups `d[k]` that may raise `KeyError` are modelled by
  `Option` fields together with accessors returning `Except String`;
  `d.get(k, default)` is modelled by `Option.getD`.
* `datetime.now()` is an external input, threaded as a `(year, month)` pair.
* The `re` module is modelled by a small matcher covering exactly the
  constructs used by the source's patterns (word boundary, case-insensitive
  literals, `\s+`, `\w+`, character classes, one capture group), with
  `re.sub`'s leftmost, non-overlapping scan semantics.
-/

namespace WebCV

/-! ## Character and string helpers (Python `str` / `re` semantics) -/

/-- Python `\w` (word character) restricted to ASCII and Latin-1: ASCII
alphanumerics, underscore, and Latin-1 letters (the source's patterns and
data only use these). -/
def isWordChar (c : Char) : Bool :=
  c.isAlphanum || c == '_' ||
    (192 ≤ c.toNat && c.toNat ≤ 255 && c.toNat ≠ 215 && c.toNat ≠ 247)

/-- Case folding for `re.IGNORECASE`, covering ASCII and Latin-1 uppercase
letters (e.g. `É` ↦ `é`). -/
def lowerChar (c : Char) : Char :=
  if c.isUpper then c.toLower
  else if 192 ≤ c.toNat && c.toNat ≤ 222 && c.toNat ≠ 215 then
    Char.ofNat (c.toNat + 32)
  else c

/-- Python `\s` / `str.strip` whitespace (ASCII range). -/
def isSpaceChar (c : Char) : Bool :=
  c == ' ' || c == '\t' || c == '\n' || c == '\r' || c.toNat == 11 || c.toNat == 12

/-- Python `str.strip()` on a character list. -/
def stripL (s : List Char) : List Char :=
  ((s.dropWhile isSpaceChar).reverse.dropWhile isSpaceChar).reverse

/-- Python `str.strip()`. -/
def pyStrip (s : String) : String := String.mk (stripL s.data)

/-- Does `p` occur at the head of `s`? (Python `str.startswith`.) -/
def headMatches : List Char → List Char → Bool
  | [], _ => true
  | _ :: _, [] => false
  | p :: ps, c :: cs => p == c && headMatches ps cs

/-- One scan step of Python `str.replace`: non-overlapping, left to right.
`fuel` bounds recursion; it is always called with `fuel = s.length`, and the
scan advances at least one character per step because `pat` is non-empty at
every call site. -/
def replaceGo (pat rep : List Char) : Nat → List Char → List Char
  | 0, s => s
  | _ + 1, [] => []
  | fuel + 1, c :: cs =>
    if headMatches pat (c :: cs) then
      rep ++ replaceGo pat rep fuel ((c :: cs).drop pat.length)
    else
      c :: replaceGo pat rep fuel cs

/-- Python `str.replace(pat, rep)` (all occurrences, left to right,
non-overlapping). -/
def pyReplace (s pat rep : String) : String :=
  String.mk (replaceGo pat.data rep.data s.data.length s.data)

/-- Does `pat` occur anywhere in `s`? (Python `pat in s`.) -/
def containsSubL : List Char → List Char → Bool
  | _, [] => false
  | pat, c :: cs => headMatches pat (c :: cs) || containsSubL pat cs

/-- Python `pat in s` for non-empty `pat`. -/
def containsSub (s pat : String) : Bool :=
  containsSubL pat.data s.data

/-- Python `sep.join(parts)`. -/
def joinSep (sep : String) : List String → String
  | [] => ""
  | [x] => x
  | x :: y :: rest => x ++ sep ++ joinSep sep (y :: rest)

/-- Python `<` on strings: lexicographic comparison by code point.  (This is
also what Lean's `String` order means; a Boolean version is used so that
every definition evaluates by kernel reduction.) -/
def pyStrLt : List Char → List Char → Bool
  | [], [] => false
  | [], _ :: _ => true
  | _ :: _, [] => false
  | a :: as, b :: bs =>
    if a.toNat < b.toNat then true
    else if b.toNat < a.toNat then false
    else pyStrLt as bs

/-- Python `min(xs)` over strings (lexicographic; first minimal element). -/
def listMinStr (x : String) (xs : List String) : String :=
  xs.foldl (fun a b => if pyStrLt b.data a.data then b else a) x

/-- Python `max(xs)` over strings (lexicographic; first maximal element). -/
def listMaxStr (x : String) (xs : List String) : String :=
  xs.foldl (fun a b => if pyStrLt a.data b.data then b else a) x

/-- `list(dict.fromkeys(xs))`: de-duplicate, keeping first occurrences in
order (a Python dict preserves insertion order). -/
def dedupFirst (xs : List String) : List String :=
  xs.foldl (fun acc r => if acc.contains r then acc else acc ++ [r]) []

/-! ## UI labels (`LABELS`) -/

/-- The two language keys of the source's `LABELS` table. `main` only ever
passes `"fr"` or `"en"`, so the key space is modelled as an enumeration. -/
inductive Lang where
  | fr
  | en
deriving DecidableEq, Repr

/-- One entry of the `LABELS` table. -/
structure Labels where
  summaryLbl : String
  detailLbl : String
  tldr : String
  contact : String
  education : String
  certificates : String
  languagesLbl : String
  skillsLbl : String
  interestsLbl : String
  present : String
  monthsLbl : String
  yearLbl : String
  yearsLbl : String
  pageLbl : String
  suite : String
  monthsList : List String

/-- The source's `LABELS` dictionary. -/
def LABELS : Lang → Labels
  | .fr =>
    { summaryLbl := "Parcours professionnel — Synthèse"
      detailLbl := "Parcours professionnel — Détail"
      tldr := "TL;DR"
      contact := "Contact"
      education := "Formation"
      certificates := "Certifications"
      languagesLbl := "Langues"
      skillsLbl := "Compétences"
      interestsLbl := "Loisirs & Intérêts"
      present := "Présent"
      monthsLbl := "mois"
      yearLbl := "an"
      yearsLbl := "ans"
      pageLbl := "Page"
      suite := " (suite)"
      monthsList := ["Jan", "Fév", "Mar", "Avr", "Mai", "Jun", "Jul", "Août",
        "Sep", "Oct", "Nov", "Déc"] }
  | .en =>
    { summaryLbl := "Professional Experience — Summary"
      detailLbl := "Professional Experience — Detail"
      tldr := "TL;DR"
      contact := "Contact"
      education := "Education"
      certificates := "Certifications"
      languagesLbl := "Languages"
      skillsLbl := "Skills"
      interestsLbl := "Interests"
      present := "Present"
      monthsLbl := "months"
      yearLbl := "year"
      yearsLbl := "years"
      pageLbl := "Page"
      suite := " (continued)"
      monthsList := ["Jan", "Feb", "Mar", "Apr", "May", "Jun", "Jul", "Aug",
        "Sep", "Oct", "Nov", "Dec"] }

/-- The string value of the `lang` variable (`"fr"` / `"en"`). -/
def langStr : Lang → String
  | .fr => "fr"
  | .en => "en"

/-! ## `parse_date`, `format_date`, `calculate_duration` -/

/-- Is `c` an ASCII digit? -/
def isDigitC (c : Char) : Bool := 48 ≤ c.toNat && c.toNat ≤ 57

/-- Numeric value of an ASCII digit character. -/
def digitVal (c : Char) : Nat := c.toNat - 48

/-- The `%m` directive of `strptime`: regex `1[0-2]|0[1-9]|[1-9]`, required
to consume the rest of the string exactly. -/
def parseMonth : List Char → Option Nat
  | [c] => if 49 ≤ c.toNat && c.toNat ≤ 57 then some (digitVal c) else none
  | [c1, c2] =>
    if c1 == '1' && (48 ≤ c2.toNat && c2.toNat ≤ 50) then some (10 + digitVal c2)
    else if c1 == '0' && (49 ≤ c2.toNat && c2.toNat ≤ 57) then some (digitVal c2)
    else none
  | _ => none

/-- `parse_date`: `datetime.strptime(date_str, "%Y-%m")`, returning
`(year, month)` on success. `%Y` is exactly four digits; `strptime` requires
the whole string to be consumed; `datetime` rejects year 0. Empty input and
parse failure both yield `none` (the source returns `None` in both cases). -/
def parse_date (s : String) : Option (Nat × Nat) :=
  match s.data with
  | y1 :: y2 :: y3 :: y4 :: '-' :: rest =>
    if isDigitC y1 && isDigitC y2 && isDigitC y3 && isDigitC y4 then
      let y := ((digitVal y1 * 10 + digitVal y2) * 10 + digitVal y3) * 10 + digitVal y4
      if y == 0 then none
      else
        match parseMonth rest with
        | some m => some (y, m)
        | none => none
    else none
  | _ => none

/-- `format_date`: empty input → "present" label; unparseable input →
returned unchanged; otherwise `"{MonthAbbrev} {Year}"`. -/
def format_date (date_str : String) (lang : Lang) : String :=
  if date_str = "" then (LABELS lang).present
  else
    match parse_date date_str with
    | none => date_str
    | some (y, m) => ((LABELS lang).monthsList.getD (m - 1) "") ++ " " ++ toString y

/-- `calculate_duration`. `now` models `datetime.now()` as a `(year, month)`
pair. A malformed start returns `""`; a *well-formed* start with a malformed
non-empty end dereferences `None` in the source (`end_dt.year`), which we
model as an `AttributeError` value. Month arithmetic is Python `int`
arithmetic: `//` is floor division (`Int.fdiv`), `%` is floor modulus
(`Int.fmod`). -/
def calculate_duration (start end_ : String) (lang : Lang) (now : Nat × Nat) :
    Except String String :=
  let start_dt := parse_date start
  let end_dt : Option (Nat × Nat) := if end_ ≠ "" then parse_date end_ else some now
  match start_dt with
  | none => .ok ""
  | some sd =>
    match end_dt with
    | none => .error "AttributeError: NoneType object has no attribute year"
    | some ed =>
      let months : Int := ((ed.1 : Int) - (sd.1 : Int)) * 12 + ((ed.2 : Int) - (sd.2 : Int))
      let years : Int := months.fdiv 12
      let remaining_months : Int := months.fmod 12
      let lbl := LABELS lang
      if years = 0 then
        .ok (toString remaining_months ++ " " ++ lbl.monthsLbl)
      else if remaining_months = 0 then
        .ok (toString years ++ " " ++ (if years = 1 then lbl.yearLbl else lbl.yearsLbl))
      else
        .ok (toString years ++ " " ++ (if years = 1 then lbl.yearLbl else lbl.yearsLbl)
          ++ " " ++ toString remaining_months ++ " " ++ lbl.monthsLbl)

/-! ## Regex matcher for the source's patterns

The source applies `re.sub(pattern, replacement, text, flags=re.IGNORECASE)`
for each anonymization rule.  Every pattern used is a sequence of: word
boundaries `\b`, case-insensitive literals, `\s+`, a one-character class,
and one of the two final capture groups `(\w+)\b` and `([A-Z][^\)]+)\b`.
The matcher below implements exactly these constructs with `re`'s greedy /
backtracking semantics, and `reSub` implements `re.sub`'s left-to-right,
non-overlapping scan (boundaries are evaluated against the original text). -/

/-- One token of a compiled pattern. `grpWord` is the final `(\w+)\b` of the
`Groupe` rule; `grpUpper` is the final `([A-Z][^\)]+)\b` of the `Mission`
rule. -/
inductive PatTok where
  | lit (cs : List Char)
  | cls (cs : List Char)
  | ws
  | wb
  | grpWord
  | grpUpper

/-- Word-character test on an optional character (out of range = non-word). -/
def isWordOpt : Option Char → Bool
  | none => false
  | some c => isWordChar c

/-- `\b`: the position between `prev` and the head of `s` is a word
boundary. -/
def atBoundary (prev : Option Char) (s : List Char) : Bool :=
  isWordOpt prev != isWordOpt s.head?

/-- Case-insensitive literal prefix match. -/
def matchLit : List Char → List Char → Bool
  | [], _ => true
  | _ :: _, [] => false
  | p :: ps, c :: cs => lowerChar p == lowerChar c && matchLit ps cs

/-- The character preceding the current position after consuming
`consumed`. -/
def lastOf (prev : Option Char) (consumed : List Char) : Option Char :=
  match consumed.getLast? with
  | some c => some c
  | none => prev

/-- Greedy backtracking for `([A-Z][^\)]+)\b`: the largest `k` with
`1 ≤ k ≤ run.length` such that a word boundary holds after `run.take k`
(`after` is the text following `run`). -/
def grpUpperLen (run after : List Char) : Nat → Option Nat
  | 0 => none
  | k + 1 =>
    if isWordOpt (run.get? k) != isWordOpt ((run.drop (k + 1) ++ after).head?) then
      some (k + 1)
    else grpUpperLen run after k

/-- Match a compiled pattern at the head of `s` (`prev` = character before
`s` in the full text).  Returns the number of consumed characters and the
capture-group content (empty if the pattern has no group). -/
def matchToks : List PatTok → Option Char → List Char → Option (Nat × List Char)
  | [], _, _ => some (0, [])
  | .wb :: rest, prev, s =>
    if atBoundary prev s then matchToks rest prev s else none
  | .lit cs :: rest, prev, s =>
    if matchLit cs s then
      match matchToks rest (lastOf prev (s.take cs.length)) (s.drop cs.length) with
      | some (n, cap) => some (cs.length + n, cap)
      | none => none
    else none
  | .cls set :: rest, _, s =>
    match s with
    | [] => none
    | c :: cs =>
      if set.contains c then
        match matchToks rest (some c) cs with
        | some (n, cap) => some (n + 1, cap)
        | none => none
      else none
  | .ws :: rest, prev, s =>
    let sp := s.takeWhile isSpaceChar
    if sp.isEmpty then none
    else
      match matchToks rest (lastOf prev sp) (s.drop sp.length) with
      | some (n, cap) => some (sp.length + n, cap)
      | none => none
  | .grpWord :: _, _, s =>
    let run := s.takeWhile isWordChar
    if run.isEmpty then none else some (run.length, run)
  | .grpUpper :: _, _, s =>
    match s with
    | [] => none
    | c :: cs =>
      if c.isAlpha then
        let run := cs.takeWhile (fun d => d ≠ ')')
        match grpUpperLen run (cs.drop run.length) run.length with
        | some k => some (1 + k, c :: run.take k)
        | none => none
      else none

/-- A piece of a replacement template: literal text or the `\1` group
reference. -/
inductive RepPiece where
  | strP (s : List Char)
  | grp

/-- Instantiate a replacement template with the captured text. -/
def buildRep (rep : List RepPiece) (cap : List Char) : List Char :=
  rep.foldr (fun p acc => match p with | .strP s => s ++ acc | .grp => cap ++ acc) []

/-- `re.sub` scan: at each position try the pattern; on a match emit the
replacement and resume after the match, otherwise keep one character and
advance.  `fuel` bounds recursion (initially the text length; the scan
consumes at least one character per step since every source pattern matches
at least one character). -/
def subGo (toks : List PatTok) (rep : List RepPiece) :
    Nat → Option Char → List Char → List Char
  | 0, _, s => s
  | _ + 1, _, [] => []
  | fuel + 1, prev, c :: cs =>
    match matchToks toks prev (c :: cs) with
    | some (n, cap) =>
      if n == 0 then c :: subGo toks rep fuel (some c) cs
      else
        buildRep rep cap ++
          subGo toks rep fuel (lastOf prev ((c :: cs).take n)) ((c :: cs).drop n)
    | none => c :: subGo toks rep fuel (some c) cs

/-- `re.sub(pattern, replacement, s, flags=re.IGNORECASE)`. -/
def reSub (toks : List PatTok) (rep : List RepPiece) (s : String) : String :=
  String.mk (subGo toks rep s.data.length none s.data)

/-- The ASCII apostrophe (the source's `['']` character class contains the
ASCII apostrophe twice). -/
def apos : Char := Char.ofNat 39

/-- `ANONYMIZATION_RULES`: the source's ordered `(pattern, replacement)`
list, compiled to pattern tokens. -/
def ANONYMIZATION_RULES : List (List PatTok × List RepPiece) :=
  [ ([.wb, .lit ("Voyages-SNCF.com").data, .wb], [.strP ("Client Transports").data]),
    ([.wb, .lit ("ButConforama").data, .wb], [.strP ("Client Distribution").data]),
    ([.wb, .lit ("LVMH").data, .ws, .lit ("Beauty").data, .ws, .lit ("Tech").data, .wb],
      [.strP ("Client Luxe").data]),
    ([.wb, .lit ("LVMH").data, .wb], [.strP ("Client Luxe").data]),
    ([.wb, .lit ("Groupe").data, .ws, .lit ("Caisse").data, .ws, .lit ("d").data,
        .cls [apos], .lit ("Epargne").data, .wb],
      [.strP ("Client Banque").data]),
    ([.wb, .lit ("Groupe").data, .ws, .grpWord], [.strP ("Client ").data, .grp]),
    ([.wb, .lit ("Groupama").data, .wb], [.strP ("Client Assurances").data]),
    ([.wb, .lit ("Natixis").data, .wb], [.strP ("Client Banque").data]),
    ([.wb, .lit ("Generali").data, .wb], [.strP ("Client Assurances").data]),
    ([.wb, .lit ("Société").data, .ws, .lit ("Générale").data, .wb],
      [.strP ("Client Banque").data]),
    ([.wb, .lit ("GE").data, .ws, .lit ("Money").data, .ws, .lit ("Bank").data, .wb],
      [.strP ("Client Banque").data]),
    ([.wb, .lit ("Caisse").data, .ws, .lit ("d").data, .cls [apos],
        .lit ("Epargne").data, .ws, .lit ("Financement").data, .wb],
      [.strP ("Client Banque").data]),
    ([.wb, .lit ("Caisse").data, .ws, .lit ("d").data, .cls [apos],
        .lit ("Epargne").data, .wb],
      [.strP ("Client Banque").data]),
    ([.wb, .lit ("Mission").data, .ws, .grpUpper], [.strP ("Mission ").data, .grp]) ]

/-- `anonymize_text`: apply every rule in order, each over the result of the
previous one. -/
def anonymize_text (text : String) : String :=
  ANONYMIZATION_RULES.foldl (fun acc r => reSub r.1 r.2 acc) text

/-! ## `get_company_name` and `group_experiences_by_company` -/

/-- `re.sub(r'\s*\([^)]*\)', '', s)` scan (strip parenthetical annotations,
with any preceding whitespace). -/
def stripParenGo : Nat → List Char → List Char
  | 0, s => s
  | _ + 1, [] => []
  | fuel + 1, c :: cs =>
    let sp := (c :: cs).takeWhile isSpaceChar
    match (c :: cs).drop sp.length with
    | '(' :: r2 =>
      let body := r2.takeWhile (fun d => d ≠ ')')
      match r2.drop body.length with
      | ')' :: r3 => stripParenGo fuel r3
      | _ => c :: stripParenGo fuel cs
    | _ => c :: stripParenGo fuel cs

/-- A work entry (`work[]` element).  The four fields the renderers access
with `entry[key]` subscripts are `Option`s (a missing key raises
`KeyError`); `summary` and `highlights` are also `Option`s but are only ever
read through `.get(key, default)`. -/
structure WorkEntry where
  name : Option String := none
  position : Option String := none
  startDate : Option String := none
  endDate : Option String := none
  summary : Option String := none
  highlights : Option (List String) := none
deriving DecidableEq, Repr

/-- `entry[key]` subscript access: `KeyError` when the key is absent. -/
def getKey (field : Option String) (key : String) : Except String String :=
  match field with
  | some v => .ok v
  | none => .error ("KeyError: " ++ key)

/-- `get_company_name`: strip parenthetical content from
`work_entry.get("name", "")` and trim whitespace. -/
def get_company_name (w : WorkEntry) : String :=
  let name := (w.name.getD "").data
  pyStrip (String.mk (stripParenGo name.length name))

/-- The body of the `for work in work_list` loop of
`group_experiences_by_company`: a Python dict preserves insertion order, so
the grouping is an ordered association list; a new key is appended at the
end, an existing key has the entry appended to its list. -/
def group_step (grouped : List (String × List WorkEntry)) (w : WorkEntry) :
    List (String × List WorkEntry) :=
  let company := get_company_name w
  if grouped.any (fun p => p.1 = company) then
    grouped.map (fun p => if p.1 = company then (p.1, p.2 ++ [w]) else p)
  else grouped ++ [(company, [w])]

/-- `group_experiences_by_company`. -/
def group_experiences_by_company (work_list : List WorkEntry) :
    List (String × List WorkEntry) :=
  work_list.foldl group_step []

/-- `COMPANY_COLORS` lookup with the `"c-sf"` default
(`get_company_color`). -/
def get_company_color (company_name : String) : String :=
  if company_name = "SFEIR" then "c-sf"
  else if company_name = "Mixdata" then "c-mx"
  else if company_name = "Canal+" then "c-ca"
  else if company_name = "Viseo Technologies" then "c-vi"
  else if company_name = "Capgemini" then "c-cg"
  else if company_name = "Maison du Temps et de la Mobilité" then "c-ot"
  else "c-sf"

/-- `COMPANY_LOGOS` lookup (`get_company_logo`): known companies get the
relative `../assets/...` path, unknown companies the empty string. -/
def get_company_logo (company_name : String) : String :=
  if company_name = "SFEIR" then "../assets/logos/sfeir.png"
  else if company_name = "Mixdata" then "../assets/logos/mixdata.jpg"
  else if company_name = "Canal+" then "../assets/logos/canal.svg"
  else if company_name = "Viseo Technologies" then "../assets/logos/viseo.jpg"
  else if company_name = "Capgemini" then "../assets/logos/capgemini.svg"
  else if company_name = "Maison du Temps et de la Mobilité" then "../assets/logos/belfort.jpg"
  else ""

/-- Sequential `for`-loop accumulation over a list of fallible computations:
stop at the first error (the shape of every rendering loop in the source).
Same semantics as `List.mapM` for `Except`, defined by plain recursion for
easy induction. -/
def mapExcept (f : α → Except String β) : List α → Except String (List β)
  | [] => .ok []
  | x :: xs =>
    match f x with
    | .error e => .error e
    | .ok y =>
      match mapExcept f xs with
      | .error e => .error e
      | .ok ys => .ok (y :: ys)

/-! ## Pagination (`split_experiences_into_pages`, lines 505–558) -/

/-- `MAX_HEIGHT_PER_COL = 255` (mm). -/
def MAX_HEIGHT_PER_COL : Nat := 255

/-- `AVG_EXP_HEIGHT = 35` (mm per experience). -/
def AVG_EXP_HEIGHT : Nat := 35

/-- The `for exp_html, height in all_exp_groups` loop of
`split_experiences_into_pages` (lines 529–558), followed by the final
`if col1 or col2` flush (lines 554–556).  State: emitted pages, current
columns, current accumulated heights. -/
def split_pages_go (pages : List (List String × List String))
    (col1 col2 : List String) (h1 h2 : Nat) :
    List (String × Nat) → List (List String × List String)
  | [] => if col1 = [] ∧ col2 = [] then pages else pages ++ [(col1, col2)]
  | (e, h) :: rest =>
    if h1 ≤ h2 then
      if h1 + h ≤ MAX_HEIGHT_PER_COL then
        split_pages_go pages (col1 ++ [e]) col2 (h1 + h) h2 rest
      else
        split_pages_go (pages ++ [(col1, col2)]) [e] [] h 0 rest
    else
      if h2 + h ≤ MAX_HEIGHT_PER_COL then
        split_pages_go pages col1 (col2 ++ [e]) h1 (h2 + h) rest
      else
        split_pages_go (pages ++ [(col1, col2)]) [e] [] h 0 rest

/-- The pagination loop on a list of `(fragment, estimated height)` pairs. -/
def split_pages_loop (l : List (String × Nat)) : List (List String × List String) :=
  split_pages_go [] [] [] 0 0 l

/-- Modelled from the spec (§4.4, steps 2–5), for the refinement claim about
the greedy pass: choose the candidate column as the one with the
smaller-or-equal accumulated height (ties favor column 1); place the group
there if it fits the budget; otherwise close the current page and start a
new page whose column 1 holds just this group. -/
def split_pages_spec_go (pages : List (List String × List String))
    (col1 col2 : List String) (h1 h2 : Nat) :
    List (String × Nat) → List (List String × List String)
  | [] => if col1 = [] ∧ col2 = [] then pages else pages ++ [(col1, col2)]
  | (e, h) :: rest =>
    let candHeight := if h1 ≤ h2 then h1 else h2
    if candHeight + h ≤ MAX_HEIGHT_PER_COL then
      if h1 ≤ h2 then
        split_pages_spec_go pages (col1 ++ [e]) col2 (h1 + h) h2 rest
      else
        split_pages_spec_go pages col1 (col2 ++ [e]) h1 (h2 + h) rest
    else
      split_pages_spec_go (pages ++ [(col1, col2)]) [e] [] h 0 rest

/-- Modelled from the spec (§4.4): the whole greedy pass in the spec's
wording. -/
def split_pages_spec (l : List (String × Nat)) : List (List String × List String) :=
  split_pages_spec_go [] [] [] 0 0 l

/-! ## Detail renderer (`render_experience_group`) -/

/-- `re.search(r'\(([^)]+)\)', s)`: content of the first parenthesized,
non-empty, `)`-free run. -/
def findParen : List Char → Option (List Char)
  | [] => none
  | '(' :: rest =>
    let body := rest.takeWhile (fun d => d ≠ ')')
    if body.isEmpty then findParen rest
    else
      match rest.drop body.length with
      | ')' :: _ => some body
      | _ => findParen rest
  | _ :: rest => findParen rest

/-- The mission-extraction block of `render_experience_group` (lines
571–580): a parenthetical from the employer name, or — when the name has no
`(` and the position contains `"Mission"` — from the position. -/
def extract_mission (nameV posV : String) : String :=
  if nameV.data.contains '(' then
    match findParen nameV.data with
    | some b => String.mk b
    | none => ""
  else if containsSub posV "Mission" then
    match findParen posV.data with
    | some b => String.mk b
    | none => ""
  else ""

/-- `exp["position"].split("(")[0].strip()`. -/
def position_displayed (posV : String) : String :=
  pyStrip (String.mk (posV.data.takeWhile (fun d => d ≠ '(')))

/-- One `<li>` of the highlights list: an `Environnement:`-prefixed bullet
gets the `exp-env` class and the marker stripped, any other bullet is
plain. -/
def render_highlight (anonymize : Bool) (highlight : String) : String :=
  let highlight := if anonymize then anonymize_text highlight else highlight
  if headMatches ("Environnement:").data highlight.data then
    let env_text := pyStrip (pyReplace highlight "Environnement:" "")
    "            <li class=\"exp-env\">" ++ env_text ++ "</li>\n"
  else
    "            <li>" ++ highlight ++ "</li>\n"

/-- The body of the `for exp in experiences` loop of
`render_experience_group` (lines 570–615).  Key accesses happen in source
order: `name`, `position`, then (inside the `calculate_duration` call)
`startDate` and `endDate`. -/
def render_one_exp (company color : String) (anonymize : Bool) (lang : Lang)
    (now : Nat × Nat) (exp : WorkEntry) : Except String String := do
  let nameV ← getKey exp.name "name"
  let posV ← getKey exp.position "position"
  let mission := extract_mission nameV posV
  let position := position_displayed posV
  -- `summary = exp.get("summary", "")` is computed (and anonymized) by the
  -- source but never rendered; it cannot fail and does not affect output.
  let mission := if anonymize then anonymize_text mission else mission
  let position := if anonymize then anonymize_text position else position
  let highlights := exp.highlights.getD []
  let highlights_html := String.join (highlights.map (render_highlight anonymize))
  let sdV ← getKey exp.startDate "startDate"
  let edV ← getKey exp.endDate "endDate"
  let duration ← calculate_duration sdV edV lang now
  let mission_html := if mission ≠ "" then "<div class=\"exp-mi\">" ++ mission ++ "</div>" else ""
  pure ("        <div class=\"exp " ++ color ++ "\">\n          <div class=\"exp-co\">"
    ++ company ++ "</div>\n          " ++ mission_html
    ++ "\n          <div class=\"exp-ro\">" ++ position
    ++ "</div>\n          <div class=\"exp-dt\">" ++ format_date sdV lang ++ " – "
    ++ format_date edV lang ++ " <span class=\"exp-dur\">" ++ duration
    ++ "</span></div>\n          <ul class=\"exp-hl\">\n" ++ highlights_html
    ++ "          </ul>\n        </div>\n\n")

/-- `render_experience_group`. -/
def render_experience_group (company : String) (experiences : List WorkEntry)
    (color : String) (anonymize : Bool) (lang : Lang) (now : Nat × Nat) :
    Except String String := do
  let blocks ← mapExcept (render_one_exp company color anonymize lang now) experiences
  pure ("      <!-- " ++ company ++ " -->\n      <div class=\"exp-grp\">\n        <div class=\"exp-grp-title\">"
    ++ company ++ "</div>\n\n" ++ String.join blocks ++ "      </div>\n\n")

/-- `split_experiences_into_pages`: render every group eagerly (lines
521–527), estimate each group's height as `len(experiences) * AVG_EXP_HEIGHT`,
then run the greedy loop. -/
def split_experiences_into_pages (grouped_work : List (String × List WorkEntry))
    (anonymize : Bool) (lang : Lang) (now : Nat × Nat) :
    Except String (List (List String × List String)) := do
  let all_exp_groups ← mapExcept (fun p => do
    let exp_group_html ← render_experience_group p.1 p.2 (get_company_color p.1)
      anonymize lang now
    pure (exp_group_html, p.2.length * AVG_EXP_HEIGHT)) grouped_work
  pure (split_pages_loop all_exp_groups)

/-! ## Resume record and sidebar renderer -/

/-- One `skills[]` element (`skill["name"]`, `skill.get("keywords", [])`). -/
structure SkillGroup where
  name : String
  keywords : List String := []
deriving DecidableEq, Repr

/-- One `education[]` element (all fields read through `.get(key, "")`). -/
structure EducationEntry where
  studyType : String := ""
  area : String := ""
  institution : String := ""
  startDate : String := ""
  endDate : String := ""
deriving DecidableEq, Repr

/-- One `certificates[]` element (`cert["name"]`, `cert.get("date", "")`). -/
structure CertEntry where
  name : String
  date : String := ""
deriving DecidableEq, Repr

/-- One `languages[]` element. -/
structure LanguageEntry where
  language : String
  fluency : String
deriving DecidableEq, Repr

/-- One `interests[]` element. -/
structure InterestEntry where
  name : String
  keywords : List String := []
deriving DecidableEq, Repr

/-- One `basics.profiles[]` element (read through `.get`). -/
structure ProfileEntry where
  network : String := ""
  username : String := ""
deriving DecidableEq, Repr

/-- The `basics` record.  Every access in the source is a `.get` with a
default, so fields are plain strings with `""` meaning absent/falsy
(`location.city` stands for `basics.get("location", {}).get("city")`). -/
structure Basics where
  name : String := ""
  label : String := ""
  image : String := ""
  phone : String := ""
  email : String := ""
  url : String := ""
  summary : String := ""
  profiles : List ProfileEntry := []
  city : String := ""
deriving DecidableEq, Repr

/-- The resume record (JSON Resume shape, the fields the generator reads). -/
structure ResumeRecord where
  basics : Basics := {}
  work : List WorkEntry := []
  skills : List SkillGroup := []
  education : List EducationEntry := []
  certificates : List CertEntry := []
  languages : List LanguageEntry := []
  interests : List InterestEntry := []
deriving DecidableEq, Repr

/-- `render_sidebar`. -/
def render_sidebar (basics : Basics) (skills : List SkillGroup)
    (education : List EducationEntry) (certificates : List CertEntry)
    (languages : List LanguageEntry) (interests : List InterestEntry)
    (anonymize : Bool) (lang : Lang) : String :=
  let lbl := LABELS lang
  let skills_section :=
    if skills ≠ [] then
      let skills_html := String.join (skills.map (fun skill =>
        "    <div class=\"sg\">\n      <div class=\"sg-n\">" ++ skill.name
          ++ "</div>\n      <div class=\"sg-k\">" ++ joinSep ", " skill.keywords
          ++ "</div>\n    </div>\n"))
      "  <hr>\n  <div>\n    <div class=\"st\">" ++ lbl.skillsLbl ++ "</div>\n"
        ++ skills_html ++ "  </div>"
    else ""
  let certs_section :=
    if certificates ≠ [] then
      let certs_html := String.join (certificates.map (fun cert =>
        let year := if cert.date ≠ "" then String.mk (cert.date.data.takeWhile (fun c => c ≠ '-')) else ""
        "    <div class=\"it\">" ++ cert.name ++ " <span class=\"it-s\">" ++ year
          ++ "</span></div>\n"))
      "  <hr>\n  <div>\n    <div class=\"st\">" ++ lbl.certificates ++ "</div>\n"
        ++ certs_html ++ "  </div>"
    else ""
  let langs_section :=
    if languages ≠ [] then
      let langs_html := String.join (languages.map (fun language =>
        "    <div class=\"it\">" ++ language.language ++ " · " ++ language.fluency
          ++ "</div>\n"))
      "  <hr>\n  <div>\n    <div class=\"st\">" ++ lbl.languagesLbl ++ "</div>\n"
        ++ langs_html ++ "  </div>"
    else ""
  let interests_section :=
    if interests ≠ [] then
      let interests_html := String.join (interests.map (fun interest =>
        "  <div>\n    <div class=\"st\">" ++ interest.name
          ++ "</div>\n    <div class=\"it\">" ++ joinSep ", " interest.keywords
          ++ "</div>\n  </div>\n"))
      "  <hr>\n" ++ interests_html
    else ""
  let edu_section :=
    if education ≠ [] then
      let edu_html := String.join (education.map (fun edu =>
        let degree :=
          if edu.studyType ≠ "" ∧ edu.area ≠ "" then
            edu.studyType ++ (if lang = .fr then " en " else " in ") ++ edu.area
          else if edu.studyType ≠ "" then edu.studyType else edu.area
        "    <div class=\"it\"><b>" ++ degree ++ "</b><br><span class=\"it-s\">"
          ++ edu.institution ++ " · " ++ edu.startDate ++ "–" ++ edu.endDate
          ++ "</span></div>\n"))
      "  <hr>\n  <div>\n    <div class=\"st\">" ++ lbl.education ++ "</div>\n"
        ++ edu_html ++ "  </div>"
    else ""
  let contact_items : List String :=
    (if ¬anonymize ∧ basics.phone ≠ "" then ["      <span>" ++ basics.phone ++ "</span>"] else [])
    ++ (if ¬anonymize ∧ basics.email ≠ "" then ["      <span>" ++ basics.email ++ "</span>"] else [])
    ++ (if basics.url ≠ "" then
          ["      <a>" ++ pyReplace (pyReplace basics.url "https://" "") "http://" "" ++ "</a>"]
        else [])
    ++ (basics.profiles.filterMap (fun profile =>
          if profile.network = "LinkedIn" then
            some ("      <a>linkedin.com/in/" ++ profile.username ++ "</a>")
          else none))
    ++ (if basics.city ≠ "" then ["      <span>" ++ basics.city ++ ", France</span>"] else [])
  let contact_html := joinSep "\n" contact_items
  "<aside class=\"sb\">\n  <img src=\"" ++ basics.image ++ "\" alt=\"" ++ basics.name
    ++ "\" class=\"photo\">\n  <div>\n    <h1>" ++ pyReplace basics.name " " "<br>"
    ++ "</h1>\n    <div class=\"sub\">" ++ pyReplace basics.label " / " "<br>"
    ++ "</div>\n  </div>\n  <hr>\n  <div>\n    <div class=\"st\">" ++ lbl.contact
    ++ "</div>\n    <div class=\"ct\">\n" ++ contact_html
    ++ "\n    </div>\n  </div>\n" ++ skills_section ++ "\n" ++ edu_section ++ "\n"
    ++ certs_section ++ "\n" ++ langs_section ++ "\n" ++ interests_section ++ "</aside>"

/-! ## Summary page (`render_page_1`) -/

/-- `[exp["startDate"] for exp in experiences if exp.get("startDate")]`. -/
def page1_all_starts (experiences : List WorkEntry) : List String :=
  experiences.filterMap (fun exp =>
    match exp.startDate with
    | some s => if s ≠ "" then some s else none
    | none => none)

/-- `[exp["endDate"] for exp in experiences if exp.get("endDate")]`. -/
def page1_all_ends (experiences : List WorkEntry) : List String :=
  experiences.filterMap (fun exp =>
    match exp.endDate with
    | some s => if s ≠ "" then some s else none
    | none => none)

/-- `min(all_starts) if all_starts else ""`. -/
def page1_earliest_start (experiences : List WorkEntry) : String :=
  match page1_all_starts experiences with
  | [] => ""
  | x :: xs => listMinStr x xs

/-- `max(all_ends) if all_ends else ""`. -/
def page1_latest_end (experiences : List WorkEntry) : String :=
  match page1_all_ends experiences with
  | [] => ""
  | x :: xs => listMaxStr x xs

/-- The `company-sum-period` text of a group's summary card:
`f"{format_date(earliest_start, lang)} – {format_date(latest_end, lang)}"`. -/
def page1_period (experiences : List WorkEntry) (lang : Lang) : String :=
  format_date (page1_earliest_start experiences) lang ++ " – "
    ++ format_date (page1_latest_end experiences) lang

/-- The description snippets a group contributes on page 1: each entry's
summary (when non-empty) plus up to two of its non-environment highlights. -/
def page1_descriptions (experiences : List WorkEntry) : List String :=
  experiences.foldl (fun descriptions exp =>
    let descriptions :=
      if exp.summary.getD "" ≠ "" then descriptions ++ [exp.summary.getD ""] else descriptions
    let non_env := (exp.highlights.getD []).filter (fun h =>
      ¬ headMatches ("Environnement:").data h.data)
    descriptions ++ non_env.take 2) []

/-- One company summary card of page 1 (lines 426–473). -/
def render_company_summary (company : String) (experiences : List WorkEntry)
    (anonymize : Bool) (lang : Lang) (now : Nat × Nat) : Except String String := do
  let earliest_start := page1_earliest_start experiences
  let latest_end := page1_latest_end experiences
  let roles ← mapExcept (fun exp => do
    let p ← getKey exp.position "position"
    pure (position_displayed p)) experiences
  let roles_str := joinSep " • " (dedupFirst roles)
  let description := joinSep "<br><br>" ((page1_descriptions experiences).take 3)
  let roles_str := if anonymize then anonymize_text roles_str else roles_str
  let description := if anonymize then anonymize_text description else description
  let logo := get_company_logo company
  let color := get_company_color company
  let duration ← calculate_duration earliest_start latest_end lang now
  pure ("  <!-- " ++ company ++ " -->\n  <div class=\"company-sum " ++ color
    ++ "\">\n    <div class=\"company-sum-logo\">\n      <img src=\"" ++ logo
    ++ "\" alt=\"" ++ company
    ++ "\">\n    </div>\n    <div class=\"company-sum-left\">\n      <div class=\"company-sum-name\">"
    ++ company ++ "</div>\n      <div class=\"company-sum-period\">" ++ page1_period experiences lang
    ++ "</div>\n      <div class=\"company-sum-dur\">" ++ duration
    ++ "</div>\n    </div>\n    <div class=\"company-sum-right\">\n      <div class=\"company-sum-roles\">"
    ++ roles_str ++ "</div>\n      <div class=\"company-sum-desc\">\n        " ++ description
    ++ "\n      </div>\n    </div>\n  </div>\n\n")

/-- `render_page_1`. -/
def render_page_1 (resume_data : ResumeRecord) (anonymize : Bool) (lang : Lang)
    (now : Nat × Nat) : Except String String := do
  let basics := resume_data.basics
  let lbl := LABELS lang
  let sidebar := render_sidebar basics resume_data.skills resume_data.education
    resume_data.certificates resume_data.languages resume_data.interests anonymize lang
  let grouped_work := group_experiences_by_company resume_data.work
  let cards ← mapExcept (fun p =>
    render_company_summary p.1 p.2 anonymize lang now) grouped_work
  let company_summaries_html := String.join cards
  let summary := pyReplace basics.summary ". " ".<br><br>"
  pure ("<!-- ========== PAGE 1 ========== -->\n<div class=\"page\">\n\n" ++ sidebar
    ++ "\n\n<!-- MAIN PAGE 1 -->\n<main class=\"mn\">\n\n  <!-- TL;DR -->\n  <div class=\"tldr\">\n    <div class=\"tldr-title\">"
    ++ lbl.tldr ++ "</div>\n    <div class=\"tldr-text\">\n      " ++ summary
    ++ "\n    </div>\n  </div>\n\n  <div class=\"sec-title\">" ++ lbl.summaryLbl
    ++ "</div>\n\n" ++ company_summaries_html ++ "\n</main>\n\n<div class=\"page-num\">"
    ++ lbl.pageLbl ++ " 1</div>\n\n</div>\n")

/-! ## Detail pages and document assembly -/

/-- One detail page (page `page_num`, starting at 2). -/
def render_detail_page (sidebar : String) (lang : Lang) (page_num : Nat)
    (cols : List String × List String) : String :=
  let lbl := LABELS lang
  let col1_html := String.join cols.1
  let col2_html := String.join cols.2
  "<!-- ========== PAGE " ++ toString page_num ++ " ========== -->\n<div class=\"page\">\n\n"
    ++ sidebar ++ "\n\n<!-- MAIN PAGE " ++ toString page_num
    ++ " -->\n<main class=\"mn\">\n\n  <div class=\"sec-title\">" ++ lbl.detailLbl
    ++ (if page_num > 2 then lbl.suite else "")
    ++ "</div>\n\n  <div class=\"exp-cols\">\n    <div class=\"exp-col\">\n\n" ++ col1_html
    ++ "    </div>\n\n    <div class=\"exp-col\">\n\n" ++ col2_html
    ++ "    </div>\n  </div>\n\n</main>\n\n<div class=\"page-num\">" ++ lbl.pageLbl ++ " "
    ++ toString page_num ++ "</div>\n\n</div>\n\n"

/-- `render_detail_pages`. -/
def render_detail_pages (resume_data : ResumeRecord) (anonymize : Bool) (lang : Lang)
    (now : Nat × Nat) : Except String String := do
  let basics := resume_data.basics
  let sidebar := render_sidebar basics resume_data.skills resume_data.education
    resume_data.certificates resume_data.languages resume_data.interests anonymize lang
  let grouped_work := group_experiences_by_company resume_data.work
  let pages_data ← split_experiences_into_pages grouped_work anonymize lang now
  pure (String.join (pages_data.enum.map (fun p =>
    render_detail_page sidebar lang (p.1 + 2) p.2)))

/-- The in-place anonymization rewrite of one work entry in `generate_html`
(lines 679–684): `name` and `position` are accessed by subscript (so a
missing key raises), `summary` and `highlights` through `.get` with
defaults (and are written back, so they become present afterwards). -/
def anonymize_entry (w : WorkEntry) : Except String WorkEntry := do
  let n ← getKey w.name "name"
  let p ← getKey w.position "position"
  pure { w with
    name := some (anonymize_text n)
    position := some (anonymize_text p)
    summary := some (anonymize_text (w.summary.getD ""))
    highlights := some ((w.highlights.getD []).map anonymize_text) }

/-- `generate_html`.  The HTML template is an external collaborator (the
`templates/cv_template.html` file is not part of the sources), passed in as
the `template` argument; the source substitutes the three placeholders with
`str.replace`. -/
def generate_html (template : String) (resume_data : ResumeRecord)
    (anonymize : Bool) (lang : Lang) (now : Nat × Nat) : Except String String := do
  let resume_data ←
    if anonymize then do
      let work ← mapExcept anonymize_entry resume_data.work
      pure { resume_data with work := work }
    else pure resume_data
  let page_1 ← render_page_1 resume_data anonymize lang now
  let detail_pages ← render_detail_pages resume_data anonymize lang now
  let html := pyReplace template "\x7b\x7b lang \x7d\x7d" (langStr lang)
  let html := pyReplace html "\x7b\x7b name \x7d\x7d" resume_data.basics.name
  let html := pyReplace html "\x7b\x7b content \x7d\x7d" (page_1 ++ "\n" ++ detail_pages)
  pure html

/-- Modelled from the spec (§6, template collaborator; the repository's
`templates/cv_template.html` is not under the sources): an HTML skeleton
with the three named insertion points for document language, subject name
and assembled page content. -/
def cv_template : String :=
  "<!DOCTYPE html>\n<html lang=\"\x7b\x7b lang \x7d\x7d\">\n<head><title>\x7b\x7b name \x7d\x7d</title></head>\n<body>\n\x7b\x7b content \x7d\x7d\n</body>\n</html>\n"

/-! Concrete data for the anonymization end-to-end claim: the spec's
scenario record (two employers, the second spanning two engagements with six
total highlight lines, an anonymization rule matching the second employer's
name `LVMH`, rendered in French). -/

/-- The scenario record.  The subject's phone and email sit in `basics`;
`LVMH` occurs only as the employer name of the second and third entries. -/
def c4_record : ResumeRecord :=
  { basics := { name := "J", phone := "0601020304", email := "jd@ex.fr" }
    work :=
      [ { name := some "Acme", position := some "D", startDate := some "2015-03",
          endDate := some "2016-02", summary := some "s", highlights := some ["m1"] },
        { name := some "LVMH", position := some "L (Mission B)",
          startDate := some "2016-03", endDate := some "2018-06",
          summary := some "t", highlights := some ["a1", "a2", "a3"] },
        { name := some "LVMH", position := some "A", startDate := some "2017-01",
          endDate := some "2019-12", summary := some "",
          highlights := some ["a4", "a5", "a6"] } ] }

/-- The scenario's work entries after the anonymization pass of
`generate_html`: the employer name `LVMH` is rewritten to `Client Luxe`,
everything else is fixed by the rules. -/
def c4_work_anon : List WorkEntry :=
  [ { name := some "Acme", position := some "D", startDate := some "2015-03",
      endDate := some "2016-02", summary := some "s", highlights := some ["m1"] },
    { name := some "Client Luxe", position := some "L (Mission B)",
      startDate := some "2016-03", endDate := some "2018-06",
      summary := some "t", highlights := some ["a1", "a2", "a3"] },
    { name := some "Client Luxe", position := some "A", startDate := some "2017-01",
      endDate := some "2019-12", summary := some "",
      highlights := some ["a4", "a5", "a6"] } ]

/-- The scenario sidebar (anonymization enabled: no contact lines). -/
def c4_sidebar : String :=
  "<aside class=\"sb\">\n  <img src=\"\" alt=\"J\" class=\"photo\">\n  <div>\n    <h1>J</h1>\n    <div class=\"sub\"></div>\n  </div>\n  <hr>\n  <div>\n    <div class=\"st\">Contact</div>\n    <div class=\"ct\">\n\n    </div>\n  </div>\n\n\n\n\n</aside>"

/-- Page-1 summary card of the first employer. -/
def c4_card1 : String :=
  "  <!-- Acme -->\n  <div class=\"company-sum c-sf\">\n    <div class=\"company-sum-logo\">\n      <img src=\"\" alt=\"Acme\">\n    </div>\n    <div class=\"company-sum-left\">\n      <div class=\"company-sum-name\">Acme</div>\n      <div class=\"company-sum-period\">Mar 2015 – Fév 2016</div>\n      <div class=\"company-sum-dur\">11 mois</div>\n    </div>\n    <div class=\"company-sum-right\">\n      <div class=\"company-sum-roles\">D</div>\n      <div class=\"company-sum-desc\">\n        s<br><br>m1\n      </div>\n    </div>\n  </div>\n\n"

/-- Page-1 summary card of the anonymized second employer. -/
def c4_card2 : String :=
  "  <!-- Client Luxe -->\n  <div class=\"company-sum c-sf\">\n    <div class=\"company-sum-logo\">\n      <img src=\"\" alt=\"Client Luxe\">\n    </div>\n    <div class=\"company-sum-left\">\n      <div class=\"company-sum-name\">Client Luxe</div>\n      <div class=\"company-sum-period\">Mar 2016 – Déc 2019</div>\n      <div class=\"company-sum-dur\">3 ans 9 mois</div>\n    </div>\n    <div class=\"company-sum-right\">\n      <div class=\"company-sum-roles\">L • A</div>\n      <div class=\"company-sum-desc\">\n        t<br><br>a1<br><br>a2\n      </div>\n    </div>\n  </div>\n\n"

/-- Detail fragment of the first employer (column 1). -/
def c4_frag1 : String :=
  "      <!-- Acme -->\n      <div class=\"exp-grp\">\n        <div class=\"exp-grp-title\">Acme</div>\n\n        <div class=\"exp c-sf\">\n          <div class=\"exp-co\">Acme</div>\n          \n          <div class=\"exp-ro\">D</div>\n          <div class=\"exp-dt\">Mar 2015 – Fév 2016 <span class=\"exp-dur\">11 mois</span></div>\n          <ul class=\"exp-hl\">\n            <li>m1</li>\n          </ul>\n        </div>\n\n      </div>\n\n"

/-- Detail fragment of the anonymized second employer (column 2). -/
def c4_frag2 : String :=
  "      <!-- Client Luxe -->\n      <div class=\"exp-grp\">\n        <div class=\"exp-grp-title\">Client Luxe</div>\n\n        <div class=\"exp c-sf\">\n          <div class=\"exp-co\">Client Luxe</div>\n          <div class=\"exp-mi\">Mission B</div>\n          <div class=\"exp-ro\">L</div>\n          <div class=\"exp-dt\">Mar 2016 – Jun 2018 <span class=\"exp-dur\">2 ans 3 mois</span></div>\n          <ul class=\"exp-hl\">\n            <li>a1</li>\n            <li>a2</li>\n            <li>a3</li>\n          </ul>\n        </div>\n\n        <div class=\"exp c-sf\">\n          <div class=\"exp-co\">Client Luxe</div>\n          \n          <div class=\"exp-ro\">A</div>\n          <div class=\"exp-dt\">Jan 2017 – Déc 2019 <span class=\"exp-dur\">2 ans 11 mois</span></div>\n          <ul class=\"exp-hl\">\n            <li>a4</li>\n            <li>a5</li>\n            <li>a6</li>\n          </ul>\n        </div>\n\n      </div>\n\n"

/-- Page 1 rendered for the scenario basics with an empty work list: the
fixed page-1 scaffolding around the sidebar and the summary cards. -/
def c4_page1_scaffold : String :=
  "<!-- ========== PAGE 1 ========== -->\n<div class=\"page\">\n\n<aside class=\"sb\">\n  <img src=\"\" alt=\"J\" class=\"photo\">\n  <div>\n    <h1>J</h1>\n    <div class=\"sub\"></div>\n  </div>\n  <hr>\n  <div>\n    <div class=\"st\">Contact</div>\n    <div class=\"ct\">\n\n    </div>\n  </div>\n\n\n\n\n</aside>\n\n<!-- MAIN PAGE 1 -->\n<main class=\"mn\">\n\n  <!-- TL;DR -->\n  <div class=\"tldr\">\n    <div class=\"tldr-title\">TL;DR</div>\n    <div class=\"tldr-text\">\n      \n    </div>\n  </div>\n\n  <div class=\"sec-title\">Parcours professionnel — Synthèse</div>\n\n\n</main>\n\n<div class=\"page-num\">Page 1</div>\n\n</div>\n"

/-- The fixed detail-page scaffolding around the sidebar and the two
fragments: a detail page with empty columns. -/
def c4_detail_scaffold : String :=
  render_detail_page c4_sidebar .fr 2 ([], [])

/-- None of the scenario's sensitive strings — the original employer name,
the subject's phone, the subject's email — occurs in `s`. -/
def noLeaks (s : String) : Bool :=
  !(containsSub s "LVMH") && !(containsSub s "0601020304") && !(containsSub s "jd@ex.fr")

/-- `noLeaks` lifted over a fallible rendering result. -/
def okNoLeaks (r : Except String String) : Bool :=
  match r with
  | .ok h => noLeaks h
  | .error _ => false

/-- Does a successful rendering result contain `pat`? -/
def okContains (r : Except String String) (pat : String) : Bool :=
  match r with
  | .ok h => containsSub h pat
  | .error _ => false

/-- A record whose work text itself contains the subject's phone number: the
phone is suppressed from the contact block but the highlight text is only
rewritten by the anonymization rules, which do not match phone numbers. -/
def c4_leak_record : ResumeRecord :=
  { basics := { name := "J", phone := "0601020304", email := "jd@ex.fr" }
    work := [ { name := some "LVMH", position := some "D", startDate := some "2020-01",
                endDate := some "2021-07", summary := some "c 0601020304",
                highlights := some [] } ] }


/-! ## Helper lemmas: pagination -/

/-- All fragments of an emitted page list, in page order (column 1 before
column 2 within a page). -/
def pagesFragments (pages : List (List String × List String)) : List String :=
  pages.flatMap (fun p => p.1 ++ p.2)

/-- An 8-entry company (estimated height `8 * 35 = 280 > 255`). -/
def c2_big_work : List WorkEntry :=
  (List.range 8).map (fun i =>
    { name := some "Big", position := some ("P" ++ toString i),
      startDate := some "2010-01", endDate := some "2010-12" })

/-- The spec's wording (§4.1) of the duration rendering: total whole months,
`years = months div 12`, `remainder = months mod 12` (floor semantics);
remainder-only when `years = 0`; years-only with singular/plural when
`remainder = 0`; both otherwise.  Refinement target for the claim about
`calculate_duration`. -/
def duration_spec_render (months : Int) (lang : Lang) : String :=
  let years := months.fdiv 12
  let remainder := months.fmod 12
  let lbl := LABELS lang
  if years = 0 then toString remainder ++ " " ++ lbl.monthsLbl
  else if remainder = 0 then
    toString years ++ " " ++ (if years = 1 then lbl.yearLbl else lbl.yearsLbl)
  else
    toString years ++ " " ++ (if years = 1 then lbl.yearLbl else lbl.yearsLbl)
      ++ " " ++ toString remainder ++ " " ++ lbl.monthsLbl

/-- A group with one finished engagement and one ongoing one. -/
def c7_exps : List WorkEntry :=
  [ { name := some "A", position := some "P1", startDate := some "2020-01",
      endDate := some "2020-06" },
    { name := some "A", position := some "P2", startDate := some "2019-05",
      endDate := some "" } ]

/-- The spec's wording of group iteration order: the first-occurrence order
of the normalized employer names.  Refinement target for the grouping
claim. -/
def firstOccurrenceKeys (work_list : List WorkEntry) : List String :=
  work_list.foldl
    (fun ks w =>
      let c := get_company_name w
      if ks.contains c then ks else ks ++ [c]) []

/-- The invariant maintained by the grouping loop over the processed prefix:
distinct keys, each group is the filter of the processed entries by its key,
every processed entry's key is present, and group sizes sum to the number of
processed entries. -/
def GroupInv (processed : List WorkEntry) (acc : List (String × List WorkEntry)) : Prop :=
  (acc.map Prod.fst).Nodup
  ∧ (∀ p ∈ acc, p.2 = processed.filter (fun w => get_company_name w = p.1))
  ∧ (∀ w ∈ processed, get_company_name w ∈ acc.map Prod.fst)
  ∧ ((acc.map (fun p => p.2.length)).sum = processed.length)

/-- The four keys the renderers access by subscript on every work entry. -/
def requiredKeysList : List String := ["name", "position", "startDate", "endDate"]

/-- The entry carries the four subscript-accessed keys. -/
def hasRequiredKeys (w : WorkEntry) : Prop :=
  w.name.isSome ∧ w.position.isSome ∧ w.startDate.isSome ∧ w.endDate.isSome

/-- The entry's end date, when present and non-empty, parses — this rules
out the separate malformed-end `AttributeError` (claim C9) so that the only
failures left are `KeyError`s. -/
def endDatesParse (w : WorkEntry) : Prop :=
  ∀ s, w.endDate = some s → s ≠ "" → parse_date s ≠ none

/-- An error value raised for one of the four required keys. -/
def IsKeyErr (e : String) : Prop :=
  ∃ k ∈ requiredKeysList, e = "KeyError: " ++ k

theorem pagesFragments_append (ps qs : List (List String × List String)) :
    pagesFragments (ps ++ qs) = pagesFragments ps ++ pagesFragments qs := by
  simp [pagesFragments]

theorem pagesFragments_length (ps : List (List String × List String)) :
    (pagesFragments ps).length = (ps.map (fun p => p.1.length + p.2.length)).sum := by
  induction ps with
  | nil => rfl
  | cons p ps ih => simp [pagesFragments] at ih ⊢; omega

theorem pagesFragments_single (c1 c2 : List String) :
    pagesFragments [(c1, c2)] = c1 ++ c2 := by
  simp [pagesFragments]

theorem split_pages_go_fragments (l : List (String × Nat)) :
    ∀ pages col1 col2 h1 h2,
      (pagesFragments (split_pages_go pages col1 col2 h1 h2 l) : Multiset String)
        = (pagesFragments pages : Multiset String) + col1 + col2 + l.map Prod.fst := by
  induction l with
  | nil =>
    intro pages col1 col2 h1 h2
    simp only [split_pages_go]
    split
    · rename_i hc
      simp [hc.1, hc.2]
    · rw [pagesFragments_append, pagesFragments_single]
      simp only [List.map_nil, Multiset.coe_nil, ← Multiset.coe_add]
      abel
  | cons hd tl ih =>
    intro pages col1 col2 h1 h2
    obtain ⟨e, h⟩ := hd
    simp only [split_pages_go]
    by_cases h12 : h1 ≤ h2
    · simp only [if_pos h12]
      split
      · rw [ih]
        simp only [List.map_cons, ← Multiset.cons_coe, ← Multiset.singleton_add,
          ← Multiset.coe_add]
        abel
      · rw [ih, pagesFragments_append, pagesFragments_single]
        simp only [List.map_cons, Multiset.coe_nil, ← Multiset.cons_coe,
          ← Multiset.singleton_add, ← Multiset.coe_add]
        abel
    · simp only [if_neg h12]
      split
      · rw [ih]
        simp only [List.map_cons, ← Multiset.cons_coe, ← Multiset.singleton_add,
          ← Multiset.coe_add]
        abel
      · rw [ih, pagesFragments_append, pagesFragments_single]
        simp only [List.map_cons, Multiset.coe_nil, ← Multiset.cons_coe,
          ← Multiset.singleton_add, ← Multiset.coe_add]
        abel

theorem split_pages_loop_perm (l : List (String × Nat)) :
    (pagesFragments (split_pages_loop l)).Perm (l.map Prod.fst) := by
  have := split_pages_go_fragments l [] [] [] 0 0
  rw [Multiset.coe_eq_coe.symm]
  simpa [pagesFragments] using this

theorem mapExcept_ok_length {α β : Type} (f : α → Except String β) :
    ∀ (l : List α) (ys : List β), mapExcept f l = .ok ys → ys.length = l.length := by
  intro l
  induction l with
  | nil => intro ys hys; cases hys; rfl
  | cons x xs ih =>
    intro ys hys
    simp only [mapExcept] at hys
    cases hfx : f x with
    | error e => rw [hfx] at hys; cases hys
    | ok y =>
      rw [hfx] at hys
      cases hxs : mapExcept f xs with
      | error e => rw [hxs] at hys; cases hys
      | ok ys' =>
        rw [hxs] at hys
        cases hys
        simp [ih ys' hxs]

/-- C1 sources cite lines 529–558: the greedy loop and the final flush. -/
theorem split_pages_go_prepend (l : List (String × Nat)) :
    ∀ pages col1 col2 h1 h2,
      split_pages_go pages col1 col2 h1 h2 l
        = pages ++ split_pages_go [] col1 col2 h1 h2 l := by
  induction l with
  | nil =>
    intro pages col1 col2 h1 h2
    simp only [split_pages_go]
    split <;> simp
  | cons hd tl ih =>
    intro pages col1 col2 h1 h2
    obtain ⟨e, h⟩ := hd
    simp only [split_pages_go]
    by_cases h12 : h1 ≤ h2
    · simp only [if_pos h12]
      split
      · exact ih ..
      · rw [ih, ih ([] ++ [(col1, col2)])]
        simp
    · simp only [if_neg h12]
      split
      · exact ih ..
      · rw [ih, ih ([] ++ [(col1, col2)])]
        simp

theorem split_pages_go_col1_ne (l : List (String × Nat)) :
    ∀ pages col1 col2 h1 h2,
      (∀ p ∈ pages, p.1 ≠ []) → col1 ≠ [] →
      ∀ p ∈ split_pages_go pages col1 col2 h1 h2 l, p.1 ≠ [] := by
  induction l with
  | nil =>
    intro pages col1 col2 h1 h2 hp hc p hmem
    simp only [split_pages_go] at hmem
    split at hmem
    · exact hp p hmem
    · rcases List.mem_append.mp hmem with hin | hin
      · exact hp p hin
      · simp at hin
        subst hin
        exact hc
  | cons hd tl ih =>
    intro pages col1 col2 h1 h2 hp hc p hmem
    obtain ⟨e, h⟩ := hd
    simp only [split_pages_go] at hmem
    by_cases h12 : h1 ≤ h2
    · rw [if_pos h12] at hmem
      split at hmem
      · exact ih pages (col1 ++ [e]) col2 _ _ hp (by simp) p hmem
      · refine ih _ [e] [] _ _ ?_ (by simp) p hmem
        intro q hq
        rcases List.mem_append.mp hq with hin | hin
        · exact hp q hin
        · simp at hin
          subst hin
          exact hc
    · rw [if_neg h12] at hmem
      split at hmem
      · exact ih pages col1 (col2 ++ [e]) _ _ hp hc p hmem
      · refine ih _ [e] [] _ _ ?_ (by simp) p hmem
        intro q hq
        rcases List.mem_append.mp hq with hin | hin
        · exact hp q hin
        · simp at hin
          subst hin
          exact hc

/-! ## C1: pagination places every group exactly once -/

/-- C1.  For every input list of company groups, the pagination function
places every group exactly once, wholly inside one column of one page: the
emitted fragments are a permutation of the input fragments (so no fragment
is dropped, duplicated across columns, or duplicated across pages), the
total fragment count across all emitted `(column-1, column-2)` page pairs
equals the input count, an empty input yields zero pages, and — at the level
of `split_experiences_into_pages` — the total number of placed groups equals
the number of input company groups. -/
theorem pagination_places_every_group_exactly_once :
    (∀ l : List (String × Nat),
        (pagesFragments (split_pages_loop l)).Perm (l.map Prod.fst)
        ∧ ((split_pages_loop l).map (fun p => p.1.length + p.2.length)).sum = l.length)
    ∧ split_pages_loop [] = []
    ∧ (∀ (grouped : List (String × List WorkEntry)) (a : Bool) (lang : Lang)
        (now : Nat × Nat) (pages : List (List String × List String)),
        split_experiences_into_pages grouped a lang now = .ok pages →
        (pages.map (fun p => p.1.length + p.2.length)).sum = grouped.length) := by
  have hperm := split_pages_loop_perm
  have hsum : ∀ l : List (String × Nat),
      ((split_pages_loop l).map (fun p => p.1.length + p.2.length)).sum = l.length := by
    intro l
    have hlen := (hperm l).length_eq
    rw [pagesFragments_length] at hlen
    simpa using hlen
  refine ⟨fun l => ⟨hperm l, hsum l⟩, by simp [split_pages_loop, split_pages_go], ?_⟩
  intro grouped a lang now pages hok
  simp only [split_experiences_into_pages] at hok
  cases hm : mapExcept (fun p => do
      let exp_group_html ← render_experience_group p.1 p.2 (get_company_color p.1) a lang now
      pure (exp_group_html, p.2.length * AVG_EXP_HEIGHT)) grouped with
  | error e => rw [hm] at hok; cases hok
  | ok all =>
    rw [hm] at hok
    cases hok
    rw [hsum all, mapExcept_ok_length _ grouped all hm]

/-- C1 witness: the general statements applied at concrete inputs. -/
theorem pagination_places_every_group_exactly_once_witness :
    (pagesFragments (split_pages_loop [("a", 35), ("b", 280)])).Perm ["a", "b"]
    ∧ (([] : List (List String × List String)).map
        (fun p => p.1.length + p.2.length)).sum = 0 :=
  ⟨(pagination_places_every_group_exactly_once.1 [("a", 35), ("b", 280)]).1,
    pagination_places_every_group_exactly_once.2.2 [] false .fr (2026, 10) [] rfl⟩

/-! ## C2: "every page non-empty" fails for a leading oversized group -/

/-- C2 counterexample.  The claim says no `(column-1, column-2)` pair with
both lists empty is ever emitted, and that a single oversized group yields
exactly one page.  On the code, a single group of estimated height
`280 > MAX_HEIGHT_PER_COL` yields **two** pages, the first with both columns
empty — both on the raw loop and through `split_experiences_into_pages` on a
real 8-entry company group. -/
theorem oversized_first_group_emits_an_empty_page :
    split_pages_loop [("g", 280)] = [([], []), (["g"], [])]
    ∧ (split_experiences_into_pages (group_experiences_by_company c2_big_work)
          false .fr (2026, 10)).map (fun ps => ps.map (fun p => (p.1.length, p.2.length)))
        = .ok [(0, 0), (1, 0)]
    ∧ MAX_HEIGHT_PER_COL < 8 * AVG_EXP_HEIGHT := by
  refine ⟨by decide, ?_, by decide⟩
  rfl

/-- C2 as amended by the counterexample: every emitted page other than a
possible leading empty page has a non-empty column 1.  A page with two empty
columns occurs exactly when the *first* group's estimated height exceeds the
budget, in which case it is the first emitted page; a single oversized group
therefore yields two pages, an empty one followed by one holding the group
alone in column 1 (the group is never dropped or deferred). -/
theorem pages_nonempty_except_leading_overflow :
    ∀ (e : String) (h : Nat) (rest : List (String × Nat)),
      (h ≤ MAX_HEIGHT_PER_COL →
        ∀ p ∈ split_pages_loop ((e, h) :: rest), p.1 ≠ [])
      ∧ (MAX_HEIGHT_PER_COL < h →
        ∃ tail, split_pages_loop ((e, h) :: rest) = ([], []) :: tail
          ∧ ∀ p ∈ tail, p.1 ≠ [])
      ∧ (MAX_HEIGHT_PER_COL < h →
        split_pages_loop [(e, h)] = [([], []), ([e], [])]) := by
  intro e h rest
  refine ⟨?_, ?_, ?_⟩
  · intro hle p hmem
    simp only [split_pages_loop, split_pages_go, Nat.le_refl, if_pos, Nat.zero_add,
      if_pos hle] at hmem
    exact split_pages_go_col1_ne rest [] ([] ++ [e]) [] h 0 (by simp) (by simp) p hmem
  · intro hgt
    have hne : ¬ (0 + h ≤ MAX_HEIGHT_PER_COL) := by omega
    refine ⟨split_pages_go [] [e] [] h 0 rest, ?_, ?_⟩
    · simp only [split_pages_loop, split_pages_go, Nat.le_refl, if_pos, if_neg hne]
      rw [split_pages_go_prepend]
      rfl
    · exact split_pages_go_col1_ne rest [] [e] [] h 0 (by simp) (by simp)
  · intro hgt
    have hne : ¬ (0 + h ≤ MAX_HEIGHT_PER_COL) := by omega
    simp only [split_pages_loop, split_pages_go, Nat.le_refl, if_pos, if_neg hne]
    simp [split_pages_go]

/-- C2 witness: the amended statement applied to the oversized group. -/
theorem pages_nonempty_except_leading_overflow_witness :
    split_pages_loop [("g", 280)] = [([], []), (["g"], [])] :=
  (pages_nonempty_except_leading_overflow "g" 280 []).2.2 (by decide)

/-! ## C3: the loop is exactly the specified greedy pass -/

theorem split_pages_go_eq_spec (l : List (String × Nat)) :
    ∀ pages col1 col2 h1 h2,
      split_pages_go pages col1 col2 h1 h2 l
        = split_pages_spec_go pages col1 col2 h1 h2 l := by
  induction l with
  | nil => intro pages col1 col2 h1 h2; rfl
  | cons hd tl ih =>
    intro pages col1 col2 h1 h2
    obtain ⟨e, h⟩ := hd
    simp only [split_pages_go, split_pages_spec_go]
    by_cases h12 : h1 ≤ h2
    · rw [if_pos h12, if_pos h12, if_pos h12]
      by_cases hfit : h1 + h ≤ MAX_HEIGHT_PER_COL
      · rw [if_pos hfit, if_pos hfit, ih]
      · rw [if_neg hfit, if_neg hfit, ih]
    · rw [if_neg h12, if_neg h12, if_neg h12]
      by_cases hfit : h2 + h ≤ MAX_HEIGHT_PER_COL
      · rw [if_pos hfit, if_pos hfit, ih]
      · rw [if_neg hfit, if_neg hfit, ih]

/-- C3.  The pagination function implements exactly the specified greedy
single pass: for each group in input order the candidate is the column with
the smaller-or-equal accumulated height (ties selecting column 1); within
budget the group is appended to the candidate and its height added;
otherwise the current `(column-1, column-2)` pair is emitted as a finished
page (even with column 2 still empty) and a new page starts with column 1
holding just this group and column 2 empty.  `split_pages_spec` is the
spec's wording of that pass. -/
theorem pagination_implements_the_specified_greedy_pass :
    ∀ l : List (String × Nat), split_pages_loop l = split_pages_spec l := by
  intro l
  exact split_pages_go_eq_spec l [] [] [] 0 0

/-! ## C5: anonymization is not idempotent in general -/

/-- C5 counterexample.  `anonymize(anonymize(x)) ≠ anonymize(x)` for
`x = "Groupe Groupe Groupe"`: the `Groupe (\w+)` rule rewrites it to
`"Client Groupe Groupe"`, which the same rule rewrites again on a second
pass to `"Client Client Groupe"` — the rule's own output re-matches its
pattern, contradicting the claim. -/
theorem anonymize_not_idempotent :
    anonymize_text "Groupe Groupe Groupe" = "Client Groupe Groupe"
    ∧ anonymize_text (anonymize_text "Groupe Groupe Groupe") = "Client Client Groupe"
    ∧ anonymize_text (anonymize_text "Groupe Groupe Groupe")
        ≠ anonymize_text "Groupe Groupe Groupe" := by
  refine ⟨by decide, by decide, by decide⟩

/-- C5 as amended by the counterexample: anonymization is a no-op (hence
idempotent) on each rule's *literal* replacement string — none of the
constant replacements matches any rule's pattern — but it is not idempotent
on all texts, because the capture-group replacement `Client \1` of the
`Groupe (\w+)` rule can reproduce text that the rule matches again. -/
theorem anonymize_fixes_replacement_literals :
    anonymize_text "Client Transports" = "Client Transports"
    ∧ anonymize_text "Client Distribution" = "Client Distribution"
    ∧ anonymize_text "Client Luxe" = "Client Luxe"
    ∧ anonymize_text "Client Banque" = "Client Banque"
    ∧ anonymize_text "Client Assurances" = "Client Assurances" := by
  refine ⟨by decide, by decide, by decide, by decide, by decide⟩

/-! ## C8: duration arithmetic and rendering -/

/-- C8.  For every pair of parseable `YYYY-MM` dates, `calculate_duration`
returns the spec's rendering of
`months = (year difference) * 12 + (month difference)` with
`years = months div 12` and `remainder = months mod 12` (floor division and
modulus), and the three spec examples hold. -/
theorem duration_is_months_div_mod_rendering :
    (∀ (s e : String) (sy sm ey em : Nat) (lang : Lang) (now : Nat × Nat),
      parse_date s = some (sy, sm) → parse_date e = some (ey, em) →
      calculate_duration s e lang now
        = .ok (duration_spec_render
            (((ey : Int) - (sy : Int)) * 12 + ((em : Int) - (sm : Int))) lang))
    ∧ (∀ now, calculate_duration "2020-01" "2021-07" .en now = .ok "1 year 6 months")
    ∧ (∀ now, calculate_duration "2020-01" "2021-01" .en now = .ok "1 year")
    ∧ (∀ now, calculate_duration "2020-01" "2020-04" .en now = .ok "3 months") := by
  refine ⟨?_, fun _ => rfl, fun _ => rfl, fun _ => rfl⟩
  intro s e sy sm ey em lang now hs he
  have hne : e ≠ "" := by
    intro h
    rw [h] at he
    simp [parse_date] at he
  have hif : (if e ≠ "" then parse_date e else some now) = some (ey, em) := by
    rw [if_pos hne, he]
  simp only [calculate_duration, hs, hif, duration_spec_render]
  split_ifs <;> rfl

/-- C8 witness: the general formula applied to the first spec example. -/
theorem duration_is_months_div_mod_rendering_witness :
    calculate_duration "2020-01" "2021-07" .en (2026, 10)
      = .ok (duration_spec_render (((2021 : Int) - 2020) * 12 + ((7 : Int) - 1)) .en) :=
  duration_is_months_div_mod_rendering.1 "2020-01" "2021-07" 2020 1 2021 7 .en (2026, 10)
    (by decide) (by decide)

/-! ## C9: malformed dates — recovery and the malformed-end crash -/

/-- C9 counterexample.  The claim says the duration function never raises on
any string inputs; but with a well-formed start and a malformed non-empty
end the source evaluates `end_dt.year` with `end_dt = None` and raises
`AttributeError` (only the start is guarded). -/
theorem duration_raises_on_malformed_end :
    calculate_duration "2020-01" "bad" .en (2026, 10)
      = .error "AttributeError: NoneType object has no attribute year" := rfl

/-- C9 as amended by the counterexample: for every malformed non-empty date
string the formatter returns the original string unchanged, and the duration
function with a malformed *start* returns the empty string — neither access
fails there; but with a parseable start and a malformed non-empty *end* the
duration function raises (`AttributeError`), so "never raises on any string
inputs" holds only when the start is malformed or the end is empty or
parseable. -/
theorem malformed_dates_recovered_locally :
    ∀ (s e : String) (lang : Lang) (now : Nat × Nat),
      (s ≠ "" → parse_date s = none → format_date s lang = s)
      ∧ (parse_date s = none → calculate_duration s e lang now = .ok "")
      ∧ (∀ d, parse_date s = some d → e ≠ "" → parse_date e = none →
          calculate_duration s e lang now
            = .error "AttributeError: NoneType object has no attribute year") := by
  intro s e lang now
  refine ⟨?_, ?_, ?_⟩
  · intro hne hp
    simp only [format_date, if_neg hne, hp]
  · intro hp
    simp only [calculate_duration, hp]
  · intro d hp hne hpe
    have hif : (if e ≠ "" then parse_date e else some now) = none := by
      rw [if_pos hne, hpe]
    simp only [calculate_duration, hp, hif]

/-- C9 witness: recovery applied to a concrete malformed string. -/
theorem malformed_dates_recovered_locally_witness :
    format_date "garbage" .fr = "garbage"
    ∧ calculate_duration "garbage" "2020-01" .fr (2026, 10) = .ok "" :=
  ⟨(malformed_dates_recovered_locally "garbage" "2020-01" .fr (2026, 10)).1
      (by decide) (by decide),
    (malformed_dates_recovered_locally "garbage" "2020-01" .fr (2026, 10)).2.1 (by decide)⟩

/-! ## C7: the summary card's span -/

theorem pyStrLt_iff_lt : ∀ (as bs : List Char), pyStrLt as bs = true ↔ as < bs := by
  intro as
  induction as with
  | nil =>
    intro bs
    cases bs with
    | nil =>
      simp only [pyStrLt, Bool.false_eq_true, false_iff]
      intro h
      cases h
    | cons b bs =>
      simp only [pyStrLt, true_iff]
      exact List.Lex.nil
  | cons a as ih =>
    intro bs
    cases bs with
    | nil =>
      simp only [pyStrLt, Bool.false_eq_true, false_iff]
      intro h
      cases h
    | cons b bs =>
      simp only [pyStrLt]
      by_cases hab : a.toNat < b.toNat
      · simp only [if_pos hab, true_iff]
        exact List.Lex.rel hab
      · by_cases hba : b.toNat < a.toNat
        · simp only [if_neg hab, if_pos hba, Bool.false_eq_true, false_iff]
          intro h
          cases h with
          | rel hlt => exact hab hlt
          | cons _ => exact absurd hba (by omega)
        · have hev : a = b := by
            have h1 : a.toNat = b.toNat := by omega
            exact Char.ext (UInt32.ext h1)
          subst hev
          simp only [if_neg hab, if_neg hba, ih bs]
          constructor
          · intro h
            exact List.Lex.cons h
          · intro h
            cases h with
            | rel hlt => exact absurd hlt hab
            | cons htl => exact htl

theorem pyStrLt_iff_lt_str (a b : String) : pyStrLt a.data b.data = true ↔ a < b :=
  (pyStrLt_iff_lt a.data b.data).trans String.lt_iff_toList_lt.symm

theorem listMinStr_spec (xs : List String) :
    ∀ x, (listMinStr x xs = x ∨ listMinStr x xs ∈ xs)
      ∧ listMinStr x xs ≤ x ∧ ∀ y ∈ xs, listMinStr x xs ≤ y := by
  induction xs with
  | nil => intro x; exact ⟨Or.inl rfl, le_refl x, by simp⟩
  | cons b xs ih =>
    intro x
    by_cases hbx : b < x
    · have hb : pyStrLt b.data x.data = true := (pyStrLt_iff_lt_str b x).mpr hbx
      have h1 : listMinStr x (b :: xs) = listMinStr b xs := by
        simp [listMinStr, hb]
      obtain ⟨hmem, hlex, hle⟩ := ih b
      refine ⟨?_, ?_, ?_⟩
      · rw [h1]
        rcases hmem with h | h
        · exact Or.inr (by simp [h])
        · exact Or.inr (List.mem_cons_of_mem b h)
      · rw [h1]
        exact le_trans hlex (le_of_lt hbx)
      · intro y hy
        rw [h1]
        rcases List.mem_cons.mp hy with h | h
        · rw [h]; exact hlex
        · exact hle y h
    · have hb : ¬ (pyStrLt b.data x.data = true) :=
        fun hc => hbx ((pyStrLt_iff_lt_str b x).mp hc)
      have h1 : listMinStr x (b :: xs) = listMinStr x xs := by
        simp [listMinStr, hb]
      obtain ⟨hmem, hlex, hle⟩ := ih x
      refine ⟨?_, ?_, ?_⟩
      · rw [h1]
        rcases hmem with h | h
        · exact Or.inl h
        · exact Or.inr (List.mem_cons_of_mem b h)
      · rw [h1]; exact hlex
      · intro y hy
        rw [h1]
        rcases List.mem_cons.mp hy with h | h
        · rw [h]; exact le_trans hlex (not_lt.mp hbx)
        · exact hle y h

theorem listMaxStr_spec (xs : List String) :
    ∀ x, (listMaxStr x xs = x ∨ listMaxStr x xs ∈ xs)
      ∧ x ≤ listMaxStr x xs ∧ ∀ y ∈ xs, y ≤ listMaxStr x xs := by
  induction xs with
  | nil => intro x; exact ⟨Or.inl rfl, le_refl x, by simp⟩
  | cons b xs ih =>
    intro x
    by_cases hbx : x < b
    · have hb : pyStrLt x.data b.data = true := (pyStrLt_iff_lt_str x b).mpr hbx
      have h1 : listMaxStr x (b :: xs) = listMaxStr b xs := by
        simp [listMaxStr, hb]
      obtain ⟨hmem, hlex, hle⟩ := ih b
      refine ⟨?_, ?_, ?_⟩
      · rw [h1]
        rcases hmem with h | h
        · exact Or.inr (by simp [h])
        · exact Or.inr (List.mem_cons_of_mem b h)
      · rw [h1]
        exact le_trans (le_of_lt hbx) hlex
      · intro y hy
        rw [h1]
        rcases List.mem_cons.mp hy with h | h
        · rw [h]; exact hlex
        · exact hle y h
    · have hb : ¬ (pyStrLt x.data b.data = true) :=
        fun hc => hbx ((pyStrLt_iff_lt_str x b).mp hc)
      have h1 : listMaxStr x (b :: xs) = listMaxStr x xs := by
        simp [listMaxStr, hb]
      obtain ⟨hmem, hlex, hle⟩ := ih x
      refine ⟨?_, ?_, ?_⟩
      · rw [h1]
        rcases hmem with h | h
        · exact Or.inl h
        · exact Or.inr (List.mem_cons_of_mem b h)
      · rw [h1]; exact hlex
      · intro y hy
        rw [h1]
        rcases List.mem_cons.mp hy with h | h
        · rw [h]; exact le_trans (not_lt.mp hbx) hlex
        · exact hle y h

/-- C7 counterexample.  The claim says the span's end is shown as the
language's "present" label whenever *any* member entry has an empty or null
end date.  On the code, a group with an ongoing member and a dated member
displays the maximum of the *dated* ends (`"Jun 2020"`), not the present
label: ongoing members are dropped from `all_ends` and ignored. -/
theorem span_end_not_present_despite_ongoing_member :
    c7_exps.any (fun w => w.endDate == some "") = true
    ∧ page1_period c7_exps .fr = "Mai 2019 – Jun 2020"
    ∧ (LABELS .fr).present = "Présent"
    ∧ containsSub (page1_period c7_exps .fr) "Présent" = false := by
  refine ⟨by decide, by rfl, by rfl, by rfl⟩

/-- C7 as amended by the counterexample: the summary card's span is the
lexicographic minimum of the members' *non-empty* start dates and the
lexicographic maximum of the members' *non-empty* end dates, and the span's
end is shown as the language's "present" label exactly when **every** member
has an empty or missing end date (an ongoing member alongside a dated one is
simply ignored by the maximum). -/
theorem summary_span_is_min_max_of_dated_entries :
    ∀ (exps : List WorkEntry) (lang : Lang),
      page1_period exps lang
        = format_date (page1_earliest_start exps) lang ++ " – "
            ++ format_date (page1_latest_end exps) lang
      ∧ (page1_all_starts exps ≠ [] →
          page1_earliest_start exps ∈ page1_all_starts exps
          ∧ ∀ y ∈ page1_all_starts exps, page1_earliest_start exps ≤ y)
      ∧ (page1_all_ends exps ≠ [] →
          page1_latest_end exps ∈ page1_all_ends exps
          ∧ ∀ y ∈ page1_all_ends exps, y ≤ page1_latest_end exps)
      ∧ (page1_all_ends exps = [] ↔ ∀ w ∈ exps, w.endDate.getD "" = "")
      ∧ (page1_all_ends exps = [] →
          format_date (page1_latest_end exps) lang = (LABELS lang).present) := by
  intro exps lang
  refine ⟨rfl, ?_, ?_, ?_, ?_⟩
  · intro hne
    cases hs : page1_all_starts exps with
    | nil => exact absurd hs hne
    | cons x xs =>
      obtain ⟨hmem, hlex, hle⟩ := listMinStr_spec xs x
      have hval : page1_earliest_start exps = listMinStr x xs := by
        simp [page1_earliest_start, hs]
      constructor
      · rw [hval]
        rcases hmem with h | h
        · rw [h]; exact List.mem_cons_self x xs
        · exact List.mem_cons_of_mem x h
      · intro y hy
        rw [hval]
        rcases List.mem_cons.mp hy with h | h
        · rw [h]; exact hlex
        · exact hle y h
  · intro hne
    cases hs : page1_all_ends exps with
    | nil => exact absurd hs hne
    | cons x xs =>
      obtain ⟨hmem, hlex, hle⟩ := listMaxStr_spec xs x
      have hval : page1_latest_end exps = listMaxStr x xs := by
        simp [page1_latest_end, hs]
      constructor
      · rw [hval]
        rcases hmem with h | h
        · rw [h]; exact List.mem_cons_self x xs
        · exact List.mem_cons_of_mem x h
      · intro y hy
        rw [hval]
        rcases List.mem_cons.mp hy with h | h
        · rw [h]; exact hlex
        · exact hle y h
  · rw [page1_all_ends, List.filterMap_eq_nil_iff]
    constructor
    · intro hall w hw
      have := hall w hw
      cases hc : w.endDate with
      | none => simp
      | some s =>
        rw [hc] at this
        by_cases hse : s = ""
        · simp [hc, hse]
        · simp [hse] at this
    · intro hall w hw
      have := hall w hw
      cases hc : w.endDate with
      | none => simp
      | some s =>
        rw [hc] at this
        simp at this
        simp [this]
  · intro hnil
    simp [page1_latest_end, hnil, format_date]

/-- C7 witness: the amended statement applied to the concrete group. -/
theorem summary_span_is_min_max_of_dated_entries_witness :
    page1_earliest_start c7_exps ∈ page1_all_starts c7_exps
    ∧ page1_latest_end c7_exps ∈ page1_all_ends c7_exps :=
  ⟨((summary_span_is_min_max_of_dated_entries c7_exps .fr).2.1 (by decide)).1,
    ((summary_span_is_min_max_of_dated_entries c7_exps .fr).2.2.1 (by decide)).1⟩

/-! ## C6: grouping by company -/

theorem map_upd_of_not_mem (c : String) (w : WorkEntry) :
    ∀ (acc : List (String × List WorkEntry)), c ∉ acc.map Prod.fst →
      acc.map (fun p => if p.1 = c then (p.1, p.2 ++ [w]) else p) = acc := by
  intro acc hc
  have : ∀ p ∈ acc, (if p.1 = c then (p.1, p.2 ++ [w]) else p) = p := by
    intro p hp
    rw [if_neg]
    intro hpc
    exact hc (List.mem_map.mpr ⟨p, hp, hpc⟩)
  calc acc.map (fun p => if p.1 = c then (p.1, p.2 ++ [w]) else p)
      = acc.map id := List.map_congr_left this
    _ = acc := List.map_id acc

theorem sum_upd (c : String) (w : WorkEntry) :
    ∀ (acc : List (String × List WorkEntry)), (acc.map Prod.fst).Nodup →
      c ∈ acc.map Prod.fst →
      ((acc.map (fun p => if p.1 = c then (p.1, p.2 ++ [w]) else p)).map
          (fun p => p.2.length)).sum
        = (acc.map (fun p => p.2.length)).sum + 1 := by
  intro acc
  induction acc with
  | nil => intro _ hmem; simp at hmem
  | cons p acc ih =>
    intro hnd hmem
    simp only [List.map_cons, List.nodup_cons] at hnd ⊢
    by_cases hpc : p.1 = c
    · rw [if_pos hpc]
      have hrest : c ∉ acc.map Prod.fst := by rw [← hpc]; exact hnd.1
      rw [map_upd_of_not_mem c w acc hrest]
      simp only [List.sum_cons, List.length_append, List.length_cons, List.length_nil]
      omega
    · rw [if_neg hpc]
      have hmem' : c ∈ acc.map Prod.fst := by
        rcases List.mem_cons.mp hmem with h | h
        · exact absurd h.symm hpc
        · exact h
      simp only [List.sum_cons]
      rw [ih hnd.2 hmem']
      omega

theorem group_step_inv (processed : List WorkEntry)
    (acc : List (String × List WorkEntry)) (w : WorkEntry)
    (hinv : GroupInv processed acc) :
    GroupInv (processed ++ [w]) (group_step acc w) := by
  obtain ⟨hnd, hfil, hcov, hsum⟩ := hinv
  by_cases hc : ∃ p ∈ acc, p.1 = get_company_name w
  · have hany : acc.any (fun p => p.1 = get_company_name w) = true := by
      rw [List.any_eq_true]
      obtain ⟨p, hp, hpc⟩ := hc
      exact ⟨p, hp, by simp [hpc]⟩
    have hmemk : get_company_name w ∈ acc.map Prod.fst := by
      obtain ⟨p, hp, hpc⟩ := hc
      exact List.mem_map.mpr ⟨p, hp, hpc⟩
    have hmapfst :
        (acc.map (fun p => if p.1 = get_company_name w
            then (p.1, p.2 ++ [w]) else p)).map Prod.fst = acc.map Prod.fst := by
      rw [List.map_map]
      apply List.map_congr_left
      intro p _
      by_cases hpc : p.1 = get_company_name w <;> simp [hpc]
    refine ⟨?_, ?_, ?_, ?_⟩ <;> simp only [group_step, if_pos hany]
    · rw [hmapfst]; exact hnd
    · intro q hq
      obtain ⟨p, hp, hpq⟩ := List.mem_map.mp hq
      by_cases hpc : p.1 = get_company_name w
      · rw [if_pos hpc] at hpq
        rw [← hpq]
        simp only [List.filter_append]
        rw [← hfil p hp, hpc]
        simp [get_company_name]
      · rw [if_neg hpc] at hpq
        rw [← hpq, hfil p hp]
        simp only [List.filter_append]
        have : (List.filter (fun v => decide (get_company_name v = p.1)) [w]) = [] := by
          simp only [List.filter, decide_eq_true_eq]
          have : ¬ (get_company_name w = p.1) := fun h => hpc h.symm
          simp [this]
        rw [this, List.append_nil]
    · intro v hv
      rw [hmapfst]
      rcases List.mem_append.mp hv with h | h
      · exact hcov v h
      · simp at h
        rw [h]
        exact hmemk
    · rw [sum_upd (get_company_name w) w acc hnd hmemk, hsum]
      simp
  · have hany : ¬ (acc.any (fun p => p.1 = get_company_name w) = true) := by
      rw [List.any_eq_true]
      intro ⟨p, hp, hpc⟩
      simp at hpc
      exact hc ⟨p, hp, hpc⟩
    have hnotk : get_company_name w ∉ acc.map Prod.fst := by
      intro hk
      obtain ⟨p, hp, hpc⟩ := List.mem_map.mp hk
      exact hc ⟨p, hp, hpc⟩
    refine ⟨?_, ?_, ?_, ?_⟩ <;> simp only [group_step, if_neg hany]
    · simp only [List.map_append, List.map_cons, List.map_nil]
      rw [List.nodup_append]
      exact ⟨hnd, by simp, by simpa using fun hk => hnotk hk⟩
    · intro q hq
      rcases List.mem_append.mp hq with h | h
      · rw [hfil q h]
        simp only [List.filter_append]
        have : (List.filter (fun v => decide (get_company_name v = q.1)) [w]) = [] := by
          have hq1 : q.1 ≠ get_company_name w := by
            intro he
            exact hnotk (he ▸ List.mem_map.mpr ⟨q, h, rfl⟩)
          have : ¬ (get_company_name w = q.1) := fun hh => hq1 hh.symm
          simp [List.filter, this]
        rw [this, List.append_nil]
      · simp at h
        rw [h]
        simp only [List.filter_append]
        have h1 : processed.filter (fun v => decide (get_company_name v = get_company_name w)) = [] := by
          rw [List.filter_eq_nil_iff]
          intro v hv
          simp only [decide_eq_true_eq]
          intro he
          exact hnotk (he ▸ hcov v hv)
        rw [h1]
        simp
    · intro v hv
      simp only [List.map_append, List.map_cons, List.map_nil]
      rcases List.mem_append.mp hv with h | h
      · exact List.mem_append.mpr (Or.inl (hcov v h))
      · simp at h
        rw [h]
        exact List.mem_append.mpr (Or.inr (by simp))
    · simp only [List.map_append, List.map_cons, List.map_nil, List.sum_append]
      simp [hsum]

theorem group_foldl_inv :
    ∀ (l processed : List WorkEntry) (acc : List (String × List WorkEntry)),
      GroupInv processed acc → GroupInv (processed ++ l) (l.foldl group_step acc) := by
  intro l
  induction l with
  | nil => intro processed acc h; simpa using h
  | cons w l ih =>
    intro processed acc h
    have h1 := group_step_inv processed acc w h
    have h2 := ih (processed ++ [w]) (group_step acc w) h1
    simpa using h2

theorem group_inv_main (work_list : List WorkEntry) :
    GroupInv work_list (group_experiences_by_company work_list) := by
  have := group_foldl_inv work_list [] [] ⟨by simp, by simp, by simp, by simp⟩
  simpa [group_experiences_by_company] using this

theorem group_keys_lockstep :
    ∀ (l : List WorkEntry) (acc : List (String × List WorkEntry)) (ks : List String),
      ks = acc.map Prod.fst →
      (l.foldl group_step acc).map Prod.fst
        = l.foldl (fun ks w =>
            let c := get_company_name w
            if ks.contains c then ks else ks ++ [c]) ks := by
  intro l
  induction l with
  | nil => intro acc ks h; simpa using h.symm
  | cons w l ih =>
    intro acc ks h
    simp only [List.foldl_cons]
    apply ih
    subst h
    simp only [group_step]
    have hcontains : (acc.map Prod.fst).contains (get_company_name w)
        = acc.any (fun p => p.1 = get_company_name w) := by
      rw [Bool.eq_iff_iff, List.elem_iff, List.any_eq_true]
      constructor
      · intro h
        obtain ⟨p, hp, hpc⟩ := List.mem_map.mp h
        exact ⟨p, hp, by simp [hpc]⟩
      · intro ⟨p, hp, hpc⟩
        simp only [decide_eq_true_eq] at hpc
        exact List.mem_map.mpr ⟨p, hp, hpc⟩
    by_cases hany : acc.any (fun p => p.1 = get_company_name w) = true
    · rw [if_pos hany]
      rw [hcontains, hany, if_pos rfl]
      rw [List.map_map]
      apply (List.map_congr_left ?_).symm
      intro p _
      by_cases hpc : p.1 = get_company_name w <;> simp [hpc]
    · rw [if_neg hany]
      rw [hcontains]
      rw [Bool.not_eq_true] at hany
      rw [hany, if_neg (by simp)]
      simp

/-- C6.  Grouping by company preserves cardinality (the group sizes sum to
the input length — no entry dropped), iterates groups in first-occurrence
order of the normalized employer names, keeps each group's entries in source
order (each group is exactly the source-order filter of the input by its
key), every entry lands in a group, and an entry with a missing or empty
employer name is keyed by the empty string (normalization strips any
parenthetical annotation and trims whitespace — `get_company_name`). -/
theorem grouping_preserves_entries_and_order :
    ∀ (work_list : List WorkEntry),
      (((group_experiences_by_company work_list).map (fun p => p.2.length)).sum
          = work_list.length)
      ∧ ((group_experiences_by_company work_list).map Prod.fst
          = firstOccurrenceKeys work_list)
      ∧ (∀ p ∈ group_experiences_by_company work_list,
          p.2 = work_list.filter (fun w => get_company_name w = p.1))
      ∧ (∀ w ∈ work_list,
          get_company_name w ∈ (group_experiences_by_company work_list).map Prod.fst)
      ∧ (∀ w : WorkEntry, w.name = none ∨ w.name = some "" → get_company_name w = "") := by
  intro work_list
  obtain ⟨hnd, hfil, hcov, hsum⟩ := group_inv_main work_list
  refine ⟨hsum, ?_, hfil, hcov, ?_⟩
  · exact group_keys_lockstep work_list [] [] rfl
  · intro w hw
    rcases hw with h | h <;> simp [get_company_name, h] <;> rfl

/-- C6 witness: the grouping facts applied to a concrete three-entry list
with a duplicated employer. -/
theorem grouping_preserves_entries_and_order_witness :
    (((group_experiences_by_company
        [{ name := some "A (x)" }, { name := some "B" }, { name := some "A" }]).map
          (fun p => p.2.length)).sum = 3)
    ∧ ((group_experiences_by_company
        [{ name := some "A (x)" }, { name := some "B" }, { name := some "A" }]).map Prod.fst
          = firstOccurrenceKeys
              [{ name := some "A (x)" }, { name := some "B" }, { name := some "A" }]) :=
  ⟨(grouping_preserves_entries_and_order
      [{ name := some "A (x)" }, { name := some "B" }, { name := some "A" }]).1,
    (grouping_preserves_entries_and_order
      [{ name := some "A (x)" }, { name := some "B" }, { name := some "A" }]).2.1⟩

/-! ## C4: anonymized end-to-end rendering -/

set_option maxRecDepth 60000 in
/-- C4 counterexample.  The claim says that for *every* record whose work
entries contain rule-matched text, anonymized generation contains the
replacement and contains the phone nowhere in the document.  On the code,
phone and email are only suppressed in the contact block; a phone number
occurring inside a work entry's text is untouched by the rules and reaches
the output: for `c4_leak_record` the output contains both the replacement
`Client Luxe` and the phone `0601020304`. -/
theorem anonymized_output_can_leak_phone :
    okContains (generate_html cv_template c4_leak_record true .fr (2026, 10))
        "Client Luxe" = true
    ∧ okContains (generate_html cv_template c4_leak_record true .fr (2026, 10))
        "0601020304" = true := by
  refine ⟨by rfl, by rfl⟩

set_option maxRecDepth 60000 in
/-- C4 as amended by the counterexample: with anonymization enabled the
sidebar is independent of phone and email (they are omitted, not masked, for
*every* record); and for the spec's concrete scenario record — where the
sensitive strings occur only in the suppressed/anonymized fields — the
anonymization pass rewrites `LVMH` to `Client Luxe`, the output contains the
replacement text, and none of the rendered components (sidebar, either
page-1 company card, either detail-page fragment, the page scaffolds, the
template) contains the original employer name, the phone, or the email. -/
theorem anonymized_rendering_replaces_and_suppresses :
    (∀ (basics : Basics) (sk : List SkillGroup) (ed : List EducationEntry)
        (ce : List CertEntry) (la : List LanguageEntry) (it : List InterestEntry)
        (lang : Lang),
      render_sidebar basics sk ed ce la it true lang
        = render_sidebar { basics with phone := "", email := "" } sk ed ce la it true lang)
    ∧ mapExcept anonymize_entry c4_record.work = .ok c4_work_anon
    ∧ render_sidebar c4_record.basics [] [] [] [] [] true .fr = c4_sidebar
    ∧ mapExcept (fun p => render_company_summary p.1 p.2 true .fr (2026, 10))
        (group_experiences_by_company c4_work_anon) = .ok [c4_card1, c4_card2]
    ∧ split_experiences_into_pages (group_experiences_by_company c4_work_anon)
        true .fr (2026, 10) = .ok [([c4_frag1], [c4_frag2])]
    ∧ okContains (generate_html cv_template c4_record true .fr (2026, 10))
        "Client Luxe" = true
    ∧ noLeaks c4_sidebar = true
    ∧ noLeaks c4_card1 = true
    ∧ noLeaks c4_card2 = true
    ∧ noLeaks c4_frag1 = true
    ∧ noLeaks c4_frag2 = true
    ∧ noLeaks c4_page1_scaffold = true
    ∧ okNoLeaks (render_page_1 { c4_record with work := [] } true .fr (2026, 10)) = true
    ∧ noLeaks c4_detail_scaffold = true
    ∧ noLeaks cv_template = true := by
  refine ⟨?_, by rfl, by rfl, by rfl, by rfl, by rfl, by rfl, by rfl, by rfl, by rfl,
    by rfl, by rfl, by rfl, by rfl, by rfl⟩
  intro basics sk ed ce la it lang
  simp [render_sidebar]

/-! ## C10: the four required work-entry keys -/

theorem mapExcept_ok_of_forall {α β : Type} {f : α → Except String β} :
    ∀ {l : List α}, (∀ x ∈ l, ∃ y, f x = .ok y) → ∃ ys, mapExcept f l = .ok ys := by
  intro l
  induction l with
  | nil => intro _; exact ⟨[], rfl⟩
  | cons x xs ih =>
    intro h
    obtain ⟨y, hy⟩ := h x (List.mem_cons_self x xs)
    obtain ⟨ys, hys⟩ := ih (fun z hz => h z (List.mem_cons_of_mem x hz))
    exact ⟨y :: ys, by simp [mapExcept, hy, hys]⟩

theorem mapExcept_ok_forall {α β : Type} {f : α → Except String β} :
    ∀ {l : List α} {ys : List β}, mapExcept f l = .ok ys →
      ∀ x ∈ l, ∃ y ∈ ys, f x = .ok y := by
  intro l
  induction l with
  | nil => intro ys _ x hx; simp at hx
  | cons z zs ih =>
    intro ys h x hx
    simp only [mapExcept] at h
    cases hz : f z with
    | error e => rw [hz] at h; cases h
    | ok y =>
      rw [hz] at h
      cases hzs : mapExcept f zs with
      | error e => rw [hzs] at h; cases h
      | ok ys' =>
        rw [hzs] at h
        cases h
        rcases List.mem_cons.mp hx with hxe | hxm
        · exact ⟨y, List.mem_cons_self y ys', by rw [hxe]; exact hz⟩
        · obtain ⟨y', hy', hfy'⟩ := ih hzs x hxm
          exact ⟨y', List.mem_cons_of_mem y hy', hfy'⟩

theorem mapExcept_error_all {α β : Type} (P : String → Prop) {f : α → Except String β} :
    ∀ {l : List α}, (∀ x ∈ l, ∀ e, f x = .error e → P e) →
      ∀ e, mapExcept f l = .error e → P e := by
  intro l
  induction l with
  | nil => intro _ e he; cases he
  | cons x xs ih =>
    intro h e he
    simp only [mapExcept] at he
    cases hx : f x with
    | error e' =>
      rw [hx] at he
      cases he
      exact h x (List.mem_cons_self x xs) e hx
    | ok y =>
      rw [hx] at he
      cases hxs : mapExcept f xs with
      | error e' =>
        rw [hxs] at he
        cases he
        exact ih (fun z hz => h z (List.mem_cons_of_mem x hz)) e hxs
      | ok ys => rw [hxs] at he; cases he

theorem mapExcept_errors_of_exists {α β : Type} (P : String → Prop)
    {f : α → Except String β} :
    ∀ {l : List α}, (∀ x ∈ l, ∀ e, f x = .error e → P e) →
      (∃ x ∈ l, ∀ y, f x ≠ .ok y) →
      ∃ e, mapExcept f l = .error e ∧ P e := by
  intro l
  induction l with
  | nil => intro _ hex; simp at hex
  | cons x xs ih =>
    intro hchar hex
    simp only [mapExcept]
    cases hx : f x with
    | error e =>
      exact ⟨e, rfl, hchar x (List.mem_cons_self x xs) e hx⟩
    | ok y =>
      have hex' : ∃ z ∈ xs, ∀ y', f z ≠ .ok y' := by
        obtain ⟨z, hz, hzf⟩ := hex
        rcases List.mem_cons.mp hz with hze | hzm
        · exact absurd hx (hze ▸ hzf y)
        · exact ⟨z, hzm, hzf⟩
      obtain ⟨e, he, hPe⟩ := ih (fun z hz => hchar z (List.mem_cons_of_mem x hz)) hex'
      exact ⟨e, by rw [he], hPe⟩

theorem except_bind_ok {α β : Type} (a : α) (f : α → Except String β) :
    (Except.ok a >>= f) = f a := rfl

theorem except_bind_error {α β : Type} (e : String) (f : α → Except String β) :
    ((Except.error e : Except String α) >>= f) = .error e := rfl

theorem except_pure {α : Type} (a : α) : (pure a : Except String α) = .ok a := rfl

theorem calculate_duration_ok_of_safe (sd ed : String) (lang : Lang) (now : Nat × Nat)
    (hsafe : ed ≠ "" → parse_date ed ≠ none) :
    ∃ s, calculate_duration sd ed lang now = .ok s := by
  have hend : ∃ d2, (if ed ≠ "" then parse_date ed else some now) = some d2 := by
    by_cases hed : ed ≠ ""
    · rw [if_pos hed]
      cases hpe : parse_date ed with
      | none => exact absurd hpe (hsafe hed)
      | some d2 => exact ⟨d2, rfl⟩
    · rw [if_neg hed]
      exact ⟨now, rfl⟩
  obtain ⟨d2, hend⟩ := hend
  cases hps : parse_date sd with
  | none => exact ⟨"", by simp only [calculate_duration, hps]⟩
  | some d =>
    simp only [calculate_duration, hps, hend]
    split_ifs <;> exact ⟨_, rfl⟩

theorem render_one_exp_ok (company color : String) (a : Bool) (lang : Lang)
    (now : Nat × Nat) (w : WorkEntry) (hk : hasRequiredKeys w)
    (hsafe : endDatesParse w) :
    ∃ s, render_one_exp company color a lang now w = .ok s := by
  obtain ⟨hn, hp, hs, hd⟩ := hk
  obtain ⟨n, hn⟩ := Option.isSome_iff_exists.mp hn
  obtain ⟨p, hp⟩ := Option.isSome_iff_exists.mp hp
  obtain ⟨sd, hs⟩ := Option.isSome_iff_exists.mp hs
  obtain ⟨ed, hd⟩ := Option.isSome_iff_exists.mp hd
  obtain ⟨s, hdur⟩ := calculate_duration_ok_of_safe sd ed lang now
    (fun hne => hsafe ed hd hne)
  cases hres : render_one_exp company color a lang now w with
  | ok s2 => exact ⟨s2, rfl⟩
  | error e =>
    simp only [render_one_exp, getKey, hn, hp, hs, hd, except_bind_ok, hdur,
      except_pure] at hres
    cases hres

theorem render_one_exp_error_char (company color : String) (a : Bool) (lang : Lang)
    (now : Nat × Nat) (w : WorkEntry) (hsafe : endDatesParse w) :
    ∀ e, render_one_exp company color a lang now w = .error e → IsKeyErr e := by
  intro e he
  simp only [render_one_exp, getKey] at he
  cases hn : w.name with
  | none =>
    rw [hn] at he
    simp only [except_bind_error] at he
    cases he
    exact ⟨"name", by simp [requiredKeysList], rfl⟩
  | some n =>
    rw [hn] at he
    simp only [except_bind_ok] at he
    cases hp : w.position with
    | none =>
      rw [hp] at he
      simp only [except_bind_error] at he
      cases he
      exact ⟨"position", by simp [requiredKeysList], rfl⟩
    | some p =>
      rw [hp] at he
      simp only [except_bind_ok] at he
      cases hs : w.startDate with
      | none =>
        rw [hs] at he
        simp only [except_bind_error] at he
        cases he
        exact ⟨"startDate", by simp [requiredKeysList], rfl⟩
      | some sd =>
        rw [hs] at he
        simp only [except_bind_ok] at he
        cases hd : w.endDate with
        | none =>
          rw [hd] at he
          simp only [except_bind_error] at he
          cases he
          exact ⟨"endDate", by simp [requiredKeysList], rfl⟩
        | some ed =>
          rw [hd] at he
          obtain ⟨s, hdur⟩ := calculate_duration_ok_of_safe sd ed lang now
            (fun hne => hsafe ed hd hne)
          simp only [except_bind_ok, hdur, except_pure] at he
          cases he

theorem render_one_exp_not_ok (company color : String) (a : Bool) (lang : Lang)
    (now : Nat × Nat) (w : WorkEntry) (hk : ¬ hasRequiredKeys w) :
    ∀ s, render_one_exp company color a lang now w ≠ .ok s := by
  intro s hok
  apply hk
  simp only [render_one_exp, getKey] at hok
  cases hn : w.name with
  | none => rw [hn] at hok; simp only [except_bind_error] at hok; cases hok
  | some n =>
    rw [hn] at hok
    simp only [except_bind_ok] at hok
    cases hp : w.position with
    | none => rw [hp] at hok; simp only [except_bind_error] at hok; cases hok
    | some p =>
      rw [hp] at hok
      simp only [except_bind_ok] at hok
      cases hs : w.startDate with
      | none => rw [hs] at hok; simp only [except_bind_error] at hok; cases hok
      | some sd =>
        rw [hs] at hok
        simp only [except_bind_ok] at hok
        cases hd : w.endDate with
        | none => rw [hd] at hok; simp only [except_bind_error] at hok; cases hok
        | some ed => exact ⟨by simp [hn], by simp [hp], by simp [hs], by simp [hd]⟩

theorem mapExcept_ok_mem_src {α β : Type} {f : α → Except String β} :
    ∀ {l : List α} {ys : List β}, mapExcept f l = .ok ys →
      ∀ y ∈ ys, ∃ x ∈ l, f x = .ok y := by
  intro l
  induction l with
  | nil =>
    intro ys h y hy
    cases h
    simp at hy
  | cons z zs ih =>
    intro ys h y hy
    simp only [mapExcept] at h
    cases hz : f z with
    | error e => rw [hz] at h; cases h
    | ok y' =>
      rw [hz] at h
      cases hzs : mapExcept f zs with
      | error e => rw [hzs] at h; cases h
      | ok ys' =>
        rw [hzs] at h
        cases h
        rcases List.mem_cons.mp hy with hye | hym
        · exact ⟨z, List.mem_cons_self z zs, by rw [← hye] at hz; exact hz⟩
        · obtain ⟨x, hx, hfx⟩ := ih hzs y hym
          exact ⟨x, List.mem_cons_of_mem z hx, hfx⟩

theorem render_experience_group_error_char (company : String) (exps : List WorkEntry)
    (color : String) (a : Bool) (lang : Lang) (now : Nat × Nat)
    (hsafe : ∀ w ∈ exps, endDatesParse w) :
    ∀ e, render_experience_group company exps color a lang now = .error e →
      IsKeyErr e := by
  intro e he
  simp only [render_experience_group] at he
  cases hm : mapExcept (render_one_exp company color a lang now) exps with
  | error e2 =>
    rw [hm] at he
    simp only [except_bind_error] at he
    cases he
    exact mapExcept_error_all IsKeyErr
      (fun w hw => render_one_exp_error_char company color a lang now w (hsafe w hw))
      e hm
  | ok blocks =>
    rw [hm] at he
    simp only [except_bind_ok, except_pure] at he
    cases he

theorem render_experience_group_ok (company : String) (exps : List WorkEntry)
    (color : String) (a : Bool) (lang : Lang) (now : Nat × Nat)
    (hk : ∀ w ∈ exps, hasRequiredKeys w) (hsafe : ∀ w ∈ exps, endDatesParse w) :
    ∃ s, render_experience_group company exps color a lang now = .ok s := by
  obtain ⟨blocks, hb⟩ := mapExcept_ok_of_forall
    (fun w hw => render_one_exp_ok company color a lang now w (hk w hw) (hsafe w hw))
  cases hres : render_experience_group company exps color a lang now with
  | ok s => exact ⟨s, rfl⟩
  | error e =>
    simp only [render_experience_group, hb, except_bind_ok, except_pure] at hres
    cases hres

theorem render_experience_group_errors (company : String) (exps : List WorkEntry)
    (color : String) (a : Bool) (lang : Lang) (now : Nat × Nat)
    (hsafe : ∀ w ∈ exps, endDatesParse w)
    (hex : ∃ w ∈ exps, ¬ hasRequiredKeys w) :
    ∃ e, render_experience_group company exps color a lang now = .error e
      ∧ IsKeyErr e := by
  obtain ⟨w, hw, hkw⟩ := hex
  obtain ⟨e, hm, hP⟩ := mapExcept_errors_of_exists IsKeyErr
    (fun z hz e' he' => render_one_exp_error_char company color a lang now z (hsafe z hz) e' he')
    ⟨w, hw, render_one_exp_not_ok company color a lang now w hkw⟩
  refine ⟨e, ?_, hP⟩
  simp only [render_experience_group, hm, except_bind_error]

theorem split_pages_error_char (grouped : List (String × List WorkEntry))
    (a : Bool) (lang : Lang) (now : Nat × Nat)
    (hsafe : ∀ p ∈ grouped, ∀ w ∈ p.2, endDatesParse w) :
    ∀ e, split_experiences_into_pages grouped a lang now = .error e → IsKeyErr e := by
  intro e he
  simp only [split_experiences_into_pages] at he
  cases hm : mapExcept (fun p => do
      let exp_group_html ← render_experience_group p.1 p.2 (get_company_color p.1) a lang now
      pure (exp_group_html, p.2.length * AVG_EXP_HEIGHT)) grouped with
  | error e2 =>
    rw [hm] at he
    simp only [except_bind_error] at he
    cases he
    refine mapExcept_error_all IsKeyErr ?_ e hm
    intro p hp e' he'
    cases hg : render_experience_group p.1 p.2 (get_company_color p.1) a lang now with
    | error eg =>
      rw [hg] at he'
      simp only [except_bind_error] at he'
      cases he'
      exact render_experience_group_error_char p.1 p.2 _ a lang now (hsafe p hp) e' hg
    | ok s =>
      rw [hg] at he'
      simp only [except_bind_ok, except_pure] at he'
      cases he'
  | ok all =>
    rw [hm] at he
    simp only [except_bind_ok, except_pure] at he
    cases he

theorem split_pages_ok (grouped : List (String × List WorkEntry))
    (a : Bool) (lang : Lang) (now : Nat × Nat)
    (hk : ∀ p ∈ grouped, ∀ w ∈ p.2, hasRequiredKeys w)
    (hsafe : ∀ p ∈ grouped, ∀ w ∈ p.2, endDatesParse w) :
    ∃ ps, split_experiences_into_pages grouped a lang now = .ok ps := by
  have hall : ∀ p ∈ grouped, ∃ y, (do
      let exp_group_html ← render_experience_group p.1 p.2 (get_company_color p.1) a lang now
      pure (exp_group_html, p.2.length * AVG_EXP_HEIGHT) : Except String (String × Nat)) = .ok y := by
    intro p hp
    obtain ⟨s, hs⟩ := render_experience_group_ok p.1 p.2 (get_company_color p.1) a lang now
      (hk p hp) (hsafe p hp)
    exact ⟨(s, p.2.length * AVG_EXP_HEIGHT), by simp only [hs, except_bind_ok, except_pure]⟩
  obtain ⟨all, hall⟩ := mapExcept_ok_of_forall hall
  simp only [except_pure] at hall
  refine ⟨split_pages_loop all, ?_⟩
  simp only [split_experiences_into_pages, except_pure, hall, except_bind_ok]

theorem split_pages_errors (grouped : List (String × List WorkEntry))
    (a : Bool) (lang : Lang) (now : Nat × Nat)
    (hsafe : ∀ p ∈ grouped, ∀ w ∈ p.2, endDatesParse w)
    (hex : ∃ p ∈ grouped, ∃ w ∈ p.2, ¬ hasRequiredKeys w) :
    ∃ e, split_experiences_into_pages grouped a lang now = .error e ∧ IsKeyErr e := by
  obtain ⟨p, hp, w, hw, hkw⟩ := hex
  have hchar : ∀ q ∈ grouped, ∀ e', (do
      let exp_group_html ← render_experience_group q.1 q.2 (get_company_color q.1) a lang now
      pure (exp_group_html, q.2.length * AVG_EXP_HEIGHT) : Except String (String × Nat))
        = .error e' → IsKeyErr e' := by
    intro q hq e' he'
    cases hg : render_experience_group q.1 q.2 (get_company_color q.1) a lang now with
    | error eg =>
      rw [hg] at he'
      simp only [except_bind_error] at he'
      cases he'
      exact render_experience_group_error_char q.1 q.2 _ a lang now (hsafe q hq) e' hg
    | ok s =>
      rw [hg] at he'
      simp only [except_bind_ok, except_pure] at he'
      cases he'
  have hbad : ∀ y, (do
      let exp_group_html ← render_experience_group p.1 p.2 (get_company_color p.1) a lang now
      pure (exp_group_html, p.2.length * AVG_EXP_HEIGHT) : Except String (String × Nat))
        ≠ .ok y := by
    intro y hy
    obtain ⟨eg, hg, _⟩ := render_experience_group_errors p.1 p.2 (get_company_color p.1)
      a lang now (hsafe p hp) ⟨w, hw, hkw⟩
    rw [hg] at hy
    simp only [except_bind_error] at hy
    cases hy
  obtain ⟨e, hm, hP⟩ := mapExcept_errors_of_exists IsKeyErr hchar ⟨p, hp, hbad⟩
  simp only [except_pure] at hm
  refine ⟨e, ?_, hP⟩
  simp only [split_experiences_into_pages, except_pure, hm, except_bind_error]

theorem page1_latest_end_safe (exps : List WorkEntry)
    (hsafe : ∀ w ∈ exps, endDatesParse w) :
    page1_latest_end exps ≠ "" → parse_date (page1_latest_end exps) ≠ none := by
  intro hne
  cases hs : page1_all_ends exps with
  | nil =>
    exfalso
    apply hne
    rw [page1_latest_end, hs]
  | cons x xs =>
    have hval : page1_latest_end exps = listMaxStr x xs := by
      rw [page1_latest_end, hs]
    have hmem : page1_latest_end exps ∈ page1_all_ends exps := by
      rw [hval, hs]
      rcases (listMaxStr_spec xs x).1 with h | h
      · rw [h]; exact List.mem_cons_self x xs
      · exact List.mem_cons_of_mem x h
    rw [page1_all_ends] at hmem
    obtain ⟨w, hw, hfw⟩ := List.mem_filterMap.mp hmem
    cases hwe : w.endDate with
    | none => rw [hwe] at hfw; cases hfw
    | some s =>
      rw [hwe] at hfw
      have hfw2 : (if s ≠ "" then some s else none) = some (page1_latest_end exps) := hfw
      by_cases hse : s ≠ ""
      · rw [if_pos hse] at hfw2
        cases hfw2
        exact hsafe w hw _ hwe hse
      · rw [if_neg hse] at hfw2
        cases hfw2

theorem render_company_summary_error_char (company : String) (exps : List WorkEntry)
    (a : Bool) (lang : Lang) (now : Nat × Nat)
    (hsafe : ∀ w ∈ exps, endDatesParse w) :
    ∀ e, render_company_summary company exps a lang now = .error e → IsKeyErr e := by
  intro e he
  obtain ⟨sdur, hdur⟩ := calculate_duration_ok_of_safe (page1_earliest_start exps)
    (page1_latest_end exps) lang now (page1_latest_end_safe exps hsafe)
  simp only [render_company_summary, except_pure] at he
  cases hm : mapExcept (fun exp => do
      let p ← getKey exp.position "position"
      pure (position_displayed p) : WorkEntry → Except String String) exps with
  | error e2 =>
    simp only [except_pure] at hm
    rw [hm] at he
    simp only [except_bind_error] at he
    cases he
    refine mapExcept_error_all IsKeyErr ?_ e hm
    intro w hw e' he'
    simp only [getKey] at he'
    cases hwp : w.position with
    | none =>
      rw [hwp] at he'
      simp only [except_bind_error] at he'
      cases he'
      exact ⟨"position", by simp [requiredKeysList], rfl⟩
    | some p =>
      rw [hwp] at he'
      simp only [except_bind_ok] at he'
      cases he'
  | ok roles =>
    simp only [except_pure] at hm
    rw [hm] at he
    simp only [except_bind_ok, hdur, except_pure] at he
    cases he

theorem render_company_summary_ok (company : String) (exps : List WorkEntry)
    (a : Bool) (lang : Lang) (now : Nat × Nat)
    (hpos : ∀ w ∈ exps, w.position.isSome) (hsafe : ∀ w ∈ exps, endDatesParse w) :
    ∃ s, render_company_summary company exps a lang now = .ok s := by
  obtain ⟨sdur, hdur⟩ := calculate_duration_ok_of_safe (page1_earliest_start exps)
    (page1_latest_end exps) lang now (page1_latest_end_safe exps hsafe)
  have hall : ∀ w ∈ exps, ∃ y, (do
      let p ← getKey w.position "position"
      pure (position_displayed p) : Except String String) = .ok y := by
    intro w hw
    obtain ⟨p, hp⟩ := Option.isSome_iff_exists.mp (hpos w hw)
    exact ⟨position_displayed p, by simp only [getKey, hp, except_bind_ok, except_pure]⟩
  obtain ⟨roles, hroles⟩ := mapExcept_ok_of_forall hall
  simp only [except_pure] at hroles
  cases hres : render_company_summary company exps a lang now with
  | ok s => exact ⟨s, rfl⟩
  | error e =>
    simp only [render_company_summary, except_pure, hroles, except_bind_ok, hdur] at hres
    cases hres

theorem group_members_sub (work : List WorkEntry) :
    ∀ p ∈ group_experiences_by_company work, ∀ w ∈ p.2, w ∈ work := by
  intro p hp w hw
  rw [(group_inv_main work).2.1 p hp] at hw
  exact List.mem_of_mem_filter hw

theorem render_page_1_error_char (resume : ResumeRecord) (a : Bool) (lang : Lang)
    (now : Nat × Nat) (hsafe : ∀ w ∈ resume.work, endDatesParse w) :
    ∀ e, render_page_1 resume a lang now = .error e → IsKeyErr e := by
  intro e he
  simp only [render_page_1] at he
  cases hm : mapExcept (fun p => render_company_summary p.1 p.2 a lang now)
      (group_experiences_by_company resume.work) with
  | error e2 =>
    rw [hm] at he
    simp only [except_bind_error] at he
    cases he
    refine mapExcept_error_all IsKeyErr ?_ e hm
    intro p hp e' he'
    exact render_company_summary_error_char p.1 p.2 a lang now
      (fun w hw => hsafe w (group_members_sub resume.work p hp w hw)) e' he'
  | ok cards =>
    rw [hm] at he
    simp only [except_bind_ok, except_pure] at he
    cases he

theorem render_page_1_ok (resume : ResumeRecord) (a : Bool) (lang : Lang)
    (now : Nat × Nat) (hpos : ∀ w ∈ resume.work, w.position.isSome)
    (hsafe : ∀ w ∈ resume.work, endDatesParse w) :
    ∃ s, render_page_1 resume a lang now = .ok s := by
  have hall : ∀ p ∈ group_experiences_by_company resume.work,
      ∃ y, render_company_summary p.1 p.2 a lang now = .ok y := by
    intro p hp
    exact render_company_summary_ok p.1 p.2 a lang now
      (fun w hw => hpos w (group_members_sub resume.work p hp w hw))
      (fun w hw => hsafe w (group_members_sub resume.work p hp w hw))
  obtain ⟨cards, hcards⟩ := mapExcept_ok_of_forall hall
  cases hres : render_page_1 resume a lang now with
  | ok s => exact ⟨s, rfl⟩
  | error e =>
    simp only [render_page_1, hcards, except_bind_ok, except_pure] at hres
    cases hres

theorem render_detail_pages_error_char (resume : ResumeRecord) (a : Bool) (lang : Lang)
    (now : Nat × Nat) (hsafe : ∀ w ∈ resume.work, endDatesParse w) :
    ∀ e, render_detail_pages resume a lang now = .error e → IsKeyErr e := by
  intro e he
  simp only [render_detail_pages] at he
  cases hm : split_experiences_into_pages (group_experiences_by_company resume.work)
      a lang now with
  | error e2 =>
    rw [hm] at he
    simp only [except_bind_error] at he
    cases he
    exact split_pages_error_char _ a lang now
      (fun p hp w hw => hsafe w (group_members_sub resume.work p hp w hw)) e hm
  | ok ps =>
    rw [hm] at he
    simp only [except_bind_ok, except_pure] at he
    cases he

theorem render_detail_pages_ok (resume : ResumeRecord) (a : Bool) (lang : Lang)
    (now : Nat × Nat) (hk : ∀ w ∈ resume.work, hasRequiredKeys w)
    (hsafe : ∀ w ∈ resume.work, endDatesParse w) :
    ∃ s, render_detail_pages resume a lang now = .ok s := by
  obtain ⟨ps, hps⟩ := split_pages_ok (group_experiences_by_company resume.work) a lang now
    (fun p hp w hw => hk w (group_members_sub resume.work p hp w hw))
    (fun p hp w hw => hsafe w (group_members_sub resume.work p hp w hw))
  cases hres : render_detail_pages resume a lang now with
  | ok s => exact ⟨s, rfl⟩
  | error e =>
    simp only [render_detail_pages, hps, except_bind_ok, except_pure] at hres
    cases hres

theorem render_detail_pages_errors (resume : ResumeRecord) (a : Bool) (lang : Lang)
    (now : Nat × Nat) (hsafe : ∀ w ∈ resume.work, endDatesParse w)
    (hex : ∃ w ∈ resume.work, ¬ hasRequiredKeys w) :
    ∃ e, render_detail_pages resume a lang now = .error e ∧ IsKeyErr e := by
  obtain ⟨w, hw, hkw⟩ := hex
  have hcov := (group_inv_main resume.work).2.2.1 w hw
  obtain ⟨p, hp, hpc⟩ := List.mem_map.mp hcov
  have hwin : w ∈ p.2 := by
    rw [(group_inv_main resume.work).2.1 p hp]
    refine List.mem_filter.mpr ⟨hw, ?_⟩
    simp [hpc]
  obtain ⟨e, hsp, hP⟩ := split_pages_errors (group_experiences_by_company resume.work)
    a lang now (fun q hq z hz => hsafe z (group_members_sub resume.work q hq z hz))
    ⟨p, hp, w, hwin, hkw⟩
  refine ⟨e, ?_, hP⟩
  simp only [render_detail_pages, hsp, except_bind_error]

theorem anonymize_entry_error_char (w : WorkEntry) :
    ∀ e, anonymize_entry w = .error e → IsKeyErr e := by
  intro e he
  simp only [anonymize_entry, getKey] at he
  cases hn : w.name with
  | none =>
    rw [hn] at he
    simp only [except_bind_error] at he
    cases he
    exact ⟨"name", by simp [requiredKeysList], rfl⟩
  | some n =>
    rw [hn] at he
    simp only [except_bind_ok] at he
    cases hp : w.position with
    | none =>
      rw [hp] at he
      simp only [except_bind_error] at he
      cases he
      exact ⟨"position", by simp [requiredKeysList], rfl⟩
    | some p =>
      rw [hp] at he
      simp only [except_bind_ok, except_pure] at he
      cases he

theorem anonymize_entry_ok_fields (w y : WorkEntry) (h : anonymize_entry w = .ok y) :
    y.startDate = w.startDate ∧ y.endDate = w.endDate
      ∧ y.name.isSome = true ∧ y.position.isSome = true := by
  simp only [anonymize_entry, getKey] at h
  cases hn : w.name with
  | none => rw [hn] at h; simp only [except_bind_error] at h; cases h
  | some n =>
    rw [hn] at h
    simp only [except_bind_ok] at h
    cases hp : w.position with
    | none => rw [hp] at h; simp only [except_bind_error] at h; cases h
    | some p =>
      rw [hp] at h
      simp only [except_bind_ok, except_pure] at h
      cases h
      exact ⟨rfl, rfl, rfl, rfl⟩

theorem anonymize_entry_not_ok (w : WorkEntry)
    (h : w.name = none ∨ w.position = none) :
    ∀ y, anonymize_entry w ≠ .ok y := by
  intro y hy
  simp only [anonymize_entry, getKey] at hy
  rcases h with hn | hp
  · rw [hn] at hy
    simp only [except_bind_error] at hy
    cases hy
  · cases hn : w.name with
    | none => rw [hn] at hy; simp only [except_bind_error] at hy; cases hy
    | some n =>
      rw [hn] at hy
      simp only [except_bind_ok] at hy
      rw [hp] at hy
      simp only [except_bind_error] at hy
      cases hy

theorem anonymize_entry_ok_of (w : WorkEntry) (hn : w.name.isSome)
    (hp : w.position.isSome) : ∃ y, anonymize_entry w = .ok y := by
  obtain ⟨n, hn⟩ := Option.isSome_iff_exists.mp hn
  obtain ⟨p, hp⟩ := Option.isSome_iff_exists.mp hp
  cases hres : anonymize_entry w with
  | ok y => exact ⟨y, rfl⟩
  | error e =>
    simp only [anonymize_entry, getKey, hn, hp, except_bind_ok, except_pure] at hres
    cases hres

/-- C10.  HTML generation raises a `KeyError` whenever some work entry lacks
one of the keys `name`, `position`, `startDate`, `endDate` (the entry is
neither skipped nor defaulted), and succeeds when every entry carries all
four (given that present non-empty end dates parse, which rules out the
separate malformed-end `AttributeError` of C9); a missing `summary` or
`highlights` is tolerated with an empty default everywhere it is read. -/
theorem detail_rendering_requires_the_four_keys :
    (∀ (template : String) (resume : ResumeRecord) (a : Bool) (lang : Lang)
        (now : Nat × Nat),
      (∀ w ∈ resume.work, endDatesParse w) →
      ((∃ w ∈ resume.work, ¬ hasRequiredKeys w) →
        ∃ k ∈ requiredKeysList,
          generate_html template resume a lang now = .error ("KeyError: " ++ k))
      ∧ ((∀ w ∈ resume.work, hasRequiredKeys w) →
        ∃ html, generate_html template resume a lang now = .ok html))
    ∧ (∀ (company color : String) (a : Bool) (lang : Lang) (now : Nat × Nat)
        (w : WorkEntry),
      render_one_exp company color a lang now { w with highlights := none }
        = render_one_exp company color a lang now { w with highlights := some [] })
    ∧ (∀ w : WorkEntry, anonymize_entry { w with summary := none }
        = anonymize_entry { w with summary := some "" })
    ∧ (∀ w : WorkEntry, anonymize_entry { w with highlights := none }
        = anonymize_entry { w with highlights := some [] })
    ∧ (∀ w : WorkEntry, page1_descriptions [{ w with summary := none }]
        = page1_descriptions [{ w with summary := some "" }]) := by
  refine ⟨?_, fun _ _ _ _ _ _ => rfl, fun _ => rfl, fun _ => rfl, fun _ => rfl⟩
  intro template resume a lang now hsafe
  constructor
  · intro hex
    cases a with
    | false =>
      cases hp1 : render_page_1 resume false lang now with
      | error e =>
        obtain ⟨k, hk, hke⟩ := render_page_1_error_char resume false lang now hsafe e hp1
        refine ⟨k, hk, ?_⟩
        rw [← hke]
        simp only [generate_html, Bool.false_eq_true, if_false, except_pure,
          except_bind_ok, hp1, except_bind_error]
      | ok p1 =>
        obtain ⟨e, hdp, hP⟩ := render_detail_pages_errors resume false lang now hsafe hex
        obtain ⟨k, hk, hke⟩ := hP
        refine ⟨k, hk, ?_⟩
        rw [← hke]
        simp only [generate_html, Bool.false_eq_true, if_false, except_pure,
          except_bind_ok, hp1, hdp, except_bind_error]
    | true =>
      cases hma : mapExcept anonymize_entry resume.work with
      | error e =>
        obtain ⟨k, hk, hke⟩ :=
          mapExcept_error_all IsKeyErr (fun w _ => anonymize_entry_error_char w) e hma
        refine ⟨k, hk, ?_⟩
        rw [← hke]
        simp only [generate_html, eq_self_iff_true, if_true, hma, except_bind_error]
      | ok work2 =>
        have hsafe2 : ∀ y ∈ work2, endDatesParse y := by
          intro y hy
          obtain ⟨x, hx, hfx⟩ := mapExcept_ok_mem_src hma y hy
          obtain ⟨hsd, hed, _, _⟩ := anonymize_entry_ok_fields x y hfx
          intro s hs hne
          exact hsafe x hx s (by rw [← hed]; exact hs) hne
        obtain ⟨w, hw, hkw⟩ := hex
        have hnp : w.name.isSome = true ∧ w.position.isSome = true := by
          cases hn : w.name with
          | none =>
            obtain ⟨y, _, hfy⟩ := mapExcept_ok_forall hma w hw
            exact absurd hfy (anonymize_entry_not_ok w (Or.inl hn) y)
          | some n =>
            cases hp : w.position with
            | none =>
              obtain ⟨y, _, hfy⟩ := mapExcept_ok_forall hma w hw
              exact absurd hfy (anonymize_entry_not_ok w (Or.inr hp) y)
            | some p => exact ⟨by simp [hn], by simp [hp]⟩
        obtain ⟨y, hy, hfy⟩ := mapExcept_ok_forall hma w hw
        obtain ⟨hsd, hed, hyn, hyp⟩ := anonymize_entry_ok_fields w y hfy
        have hky : ¬ hasRequiredKeys y := by
          intro hky
          obtain ⟨_, _, hys, hye⟩ := hky
          refine hkw ⟨hnp.1, hnp.2, ?_, ?_⟩
          · rw [← hsd]; exact hys
          · rw [← hed]; exact hye
        cases hp1 : render_page_1 { resume with work := work2 } true lang now with
        | error e =>
          obtain ⟨k, hk, hke⟩ := render_page_1_error_char { resume with work := work2 }
            true lang now hsafe2 e hp1
          refine ⟨k, hk, ?_⟩
          rw [← hke]
          simp only [generate_html, eq_self_iff_true, if_true, hma, except_bind_ok,
            except_pure, hp1, except_bind_error]
        | ok p1 =>
          obtain ⟨e, hdp, hP⟩ := render_detail_pages_errors { resume with work := work2 }
            true lang now hsafe2 ⟨y, hy, hky⟩
          obtain ⟨k, hk, hke⟩ := hP
          refine ⟨k, hk, ?_⟩
          rw [← hke]
          simp only [generate_html, eq_self_iff_true, if_true, hma, except_bind_ok,
            except_pure, hp1, hdp, except_bind_error]
  · intro hall
    cases a with
    | false =>
      obtain ⟨p1, hp1⟩ := render_page_1_ok resume false lang now
        (fun w hw => (hall w hw).2.1) hsafe
      obtain ⟨dp, hdp⟩ := render_detail_pages_ok resume false lang now hall hsafe
      cases hres : generate_html template resume false lang now with
      | ok h => exact ⟨h, rfl⟩
      | error e =>
        simp only [generate_html, Bool.false_eq_true, if_false, except_pure,
          except_bind_ok, hp1, hdp] at hres
        cases hres
    | true =>
      obtain ⟨work2, hma⟩ := mapExcept_ok_of_forall
        (fun w hw => anonymize_entry_ok_of w (hall w hw).1 (hall w hw).2.1)
      have hsafe2 : ∀ y ∈ work2, endDatesParse y := by
        intro y hy
        obtain ⟨x, hx, hfx⟩ := mapExcept_ok_mem_src hma y hy
        obtain ⟨hsd, hed, _, _⟩ := anonymize_entry_ok_fields x y hfx
        intro s hs hne
        exact hsafe x hx s (by rw [← hed]; exact hs) hne
      have hall2 : ∀ y ∈ work2, hasRequiredKeys y := by
        intro y hy
        obtain ⟨x, hx, hfx⟩ := mapExcept_ok_mem_src hma y hy
        obtain ⟨hsd, hed, hyn, hyp⟩ := anonymize_entry_ok_fields x y hfx
        obtain ⟨_, _, hxs, hxe⟩ := hall x hx
        exact ⟨hyn, hyp, by rw [hsd]; exact hxs, by rw [hed]; exact hxe⟩
      obtain ⟨p1, hp1⟩ := render_page_1_ok { resume with work := work2 } true lang now
        (fun y hy => (hall2 y hy).2.1) hsafe2
      obtain ⟨dp, hdp⟩ := render_detail_pages_ok { resume with work := work2 } true lang now
        hall2 hsafe2
      cases hres : generate_html template resume true lang now with
      | ok h => exact ⟨h, rfl⟩
      | error e =>
        simp only [generate_html, eq_self_iff_true, if_true, hma, except_bind_ok,
          except_pure, hp1, hdp] at hres
        cases hres

/-- C10 witness: a record whose single work entry lacks `endDate` fails with
the corresponding `KeyError`, and the complete variant renders. -/
theorem detail_rendering_requires_the_four_keys_witness :
    (∃ k ∈ requiredKeysList,
      generate_html cv_template
        { work := [{ name := some "X", position := some "P", startDate := some "2020-01" }] }
        false .fr (2026, 10) = .error ("KeyError: " ++ k))
    ∧ ∃ html, generate_html cv_template
        { work := [{ name := some "X", position := some "P", startDate := some "2020-01",
                     endDate := some "2020-05" }] }
        false .fr (2026, 10) = .ok html :=
  ⟨(detail_rendering_requires_the_four_keys.1 cv_template
      { work := [{ name := some "X", position := some "P", startDate := some "2020-01" }] }
      false .fr (2026, 10) (by intro w hw s hs hne; simp at hw; subst hw; simp at hs)).1
      ⟨{ name := some "X", position := some "P", startDate := some "2020-01" },
        by simp, fun h => by simp [hasRequiredKeys] at h⟩,
    (detail_rendering_requires_the_four_keys.1 cv_template
      { work := [{ name := some "X", position := some "P", startDate := some "2020-01",
                   endDate := some "2020-05" }] }
      false .fr (2026, 10)
      (by intro w hw s hs hne; simp at hw; subst hw; simp at hs; rw [← hs]; decide)).2
      (by intro w hw; simp at hw; subst hw; exact ⟨rfl, rfl, rfl, rfl⟩)⟩

end WebCV
